import Mathlib

/-!
# gangplank: stage orchestration (`ocp/bc.go`)

A shallow embedding of `buildConfig.Exec`: the readiness gate (`ready`), the grouping of
stage tasks by `ExecutionOrder`, and the channel protocol between the group loop, the
stage tasks and the coordinating goroutine.
-/

namespace Gangplank

/-! ## Go standard library helpers used by the gate (`strings`, `path/filepath` on Unix) -/

namespace strings

/-- Go `strings.HasPrefix(s, p)`. -/
def HasPrefix (s p : String) : Bool := p.data.isPrefixOf s.data

/-- Go `strings.HasSuffix(s, p)`. -/
def HasSuffix (s p : String) : Bool := p.data.isSuffixOf s.data

end strings

namespace filepath

/-- Treatment of one path element by `filepath.Clean`. The elements kept so far are held
as a stack (last element first). Empty elements and `.` are dropped; `..` removes the last
kept element when there is one that is not itself `..`, is dropped at the root of a rooted
path, and is kept otherwise. -/
def cleanStep (rooted : Bool) (out : List (List Char)) (seg : List Char) : List (List Char) :=
  if seg = [] ∨ seg = ['.'] then out
  else if seg = ['.', '.'] then
    match out with
    | [] => if rooted then [] else [seg]
    | top :: rest => if top = ['.', '.'] then seg :: out else rest
  else seg :: out

/-- Go `filepath.Clean` on the characters of a path. -/
def cleanChars (p : List Char) : List Char :=
  if p = [] then ['.']
  else
    let rooted : Bool := p.head? = some '/'
    let out := ((p.splitOn '/').foldl (cleanStep rooted) []).reverse
    if rooted then '/' :: ['/'].intercalate out
    else if out = [] then ['.'] else ['/'].intercalate out

/-- Go `filepath.Clean`. -/
def Clean (p : String) : String := String.mk (cleanChars p.data)

/-- Go `filepath.Join`: the elements from the first non-empty one on are joined with the
separator and the result is cleaned; when every element is empty the result is empty. -/
def Join (elem : List String) : String :=
  match elem.dropWhile (fun e => e.data = []) with
  | [] => ""
  | rest => String.mk (cleanChars (['/'].intercalate (rest.map String.data)))

/-- Go `filepath.Base` on the characters of a path: trailing separators are stripped and
the last element is returned; `.` for the empty path, `/` for a path of separators only. -/
def baseChars (p : List Char) : List Char :=
  if p = [] then ['.']
  else
    let stripped := p.reverse.dropWhile (fun c => c = '/')
    let last := (stripped.takeWhile (fun c => c ≠ '/')).reverse
    if last = [] then ['/'] else last

/-- Go `filepath.Base`. -/
def Base (p : String) : String := String.mk (baseChars p.data)

end filepath

/-! ## Data model -/

/-- Modelled from the spec: the `cosa.Artifact` type is declared outside the files at hand;
a named artifact of a build, with its relative path. -/
structure Artifact where
  Path : String
  deriving DecidableEq, Repr

/-- Modelled from the spec: the `cosa.Build` type (a `meta.json` record) is declared outside
the files at hand. `BuildID` is the build identifier the record reports, and `GetArtifact`
is the result of the method `GetArtifact` on this record: `none` when it returns an error. -/
structure Build where
  BuildID : String
  GetArtifact : String → Option Artifact

/-- The `minioServer` handle of `Exec`: `m.dir` and `m.Host`. -/
structure minioServer where
  dir : String
  Host : String
  deriving DecidableEq, Repr

/-- The `RemoteFile` struct as `bc.go` fills it in. -/
structure RemoteFile where
  Artifact : Option Artifact := none
  Bucket : String
  Minio : minioServer
  Object : String
  Compressed : Bool := false
  deriving DecidableEq, Repr

/-- The `spec.Stage` fields read or written by `bc.go`. -/
structure Stage where
  ID : String
  Description : String := ""
  DirectExec : Bool := false
  Commands : List String := []
  ExecutionOrder : Int := 0
  RequireArtifacts : List String := []
  deriving DecidableEq, Repr

/-- The `Return` struct: where workers send their results. -/
structure Return where
  Minio : minioServer
  Bucket : String
  deriving DecidableEq, Repr

/-- The `workSpec` fields set by the stage task (`APIBuild` and `JobSpec` are carried
unchanged and play no part in the gate). -/
structure workSpec where
  ExecuteStages : List String
  RemoteFiles : List RemoteFile
  Return : Return
  deriving DecidableEq, Repr

/-- What the gate's external calls observe at the time of one poll. `ReadBuild dir id arch`
is the record returned by `cosa.ReadBuild` (`none` for a nil record; the gate drops the
other two results). `Walk root` lists the `os.FileInfo` of every callback `filepath.Walk`
makes under `root`, in order, by name; `none` stands for a callback with a nil info. -/
structure World where
  ReadBuild : String → String → String → Option Build
  Walk : String → List (Option String)

/-- The values `ready` captures from `Exec` and the package: `cosaSrvDir`, the result of
`cosa.BuilderArch()`, and the minio handle `m`. -/
structure GateCtx where
  cosaSrvDir : String
  arch : String
  m : minioServer
  deriving DecidableEq, Repr

/-- An external call made by the gate. -/
inductive Call where
  | ReadBuild (dir id arch : String)
  | Walk (root : String)
  deriving DecidableEq, Repr

/-! ## The readiness gate: the `ready` closure of `Exec` -/

/-- The callback `ready` passes to `filepath.Walk`, as its effect on `ws.RemoteFiles`. -/
def walkFn (c : GateCtx) (buildPath : String) (files : List RemoteFile) (info : Option String) :
    List RemoteFile :=
  match info with
  | none => files
  | some name =>
    let n := filepath.Base name
    if !(strings.HasPrefix n "meta" && strings.HasSuffix n ".json") then files
    else
      let keyPath := filepath.Join [buildPath, n]
      files ++ [{ Bucket := "builds", Minio := c.m, Object := keyPath }]

/-- The loop of `ready` over `s.RequireArtifacts`. The state is `ws.RemoteFiles` and
`foundCount`; the first component of the result tells whether the loop left the function
with `return false`. -/
def requireLoop (c : GateCtx) (mBuild : Option Build) (buildPath : String) :
    List String → List RemoteFile → Nat → Bool × List RemoteFile × Nat
  | [], files, foundCount => (false, files, foundCount)
  | artifact :: rest, files, foundCount =>
    match mBuild with
    | none => (true, files, foundCount)
    | some b =>
      match b.GetArtifact artifact with
      | none => (true, files, foundCount)
      | some bArtifact =>
        let keyPath := filepath.Join [buildPath, filepath.Base bArtifact.Path]
        let r : RemoteFile :=
          { Artifact := some bArtifact, Bucket := "builds", Minio := c.m, Object := keyPath }
        requireLoop c mBuild buildPath rest (files ++ [r]) (foundCount + 1)

/-- Outcome of one call of `ready`: its return value, the work specification as the call
leaves it, the captured `buildID` after the call, and the external calls made, in order. -/
structure GateResult where
  ready : Bool
  ws : workSpec
  buildID : String
  calls : List Call

/-- One call `ready(ws)` for the stage copy `s`, with the captured variable `buildID`. -/
def ready (c : GateCtx) (w : World) (s : Stage) (buildID : String) (ws : workSpec) :
    GateResult :=
  let mBuild := w.ReadBuild c.cosaSrvDir buildID ""
  let buildID' :=
    match mBuild with
    | some b => if b.BuildID ≠ buildID then b.BuildID else buildID
    | none => buildID
  let buildPath := filepath.Join [buildID', c.arch]
  let jsonPath := filepath.Join [c.cosaSrvDir, "builds", buildPath]
  let files := (w.Walk jsonPath).foldl (walkFn c buildPath) ws.RemoteFiles
  let calls := [Call.ReadBuild c.cosaSrvDir buildID "", Call.Walk jsonPath]
  match requireLoop c mBuild buildPath s.RequireArtifacts files 0 with
  | (true, files', _) =>
    { ready := false, ws := { ws with RemoteFiles := files' }, buildID := buildID', calls := calls }
  | (false, files', foundCount) =>
    { ready := decide (s.RequireArtifacts.length = foundCount),
      ws := { ws with RemoteFiles := files' }, buildID := buildID', calls := calls }

/-- The work specification a stage task builds before it calls the gate. -/
def freshWs (c : GateCtx) (remoteFiles : List RemoteFile) (s : Stage) : workSpec :=
  { ExecuteStages := [s.ID], RemoteFiles := remoteFiles,
    Return := { Minio := c.m, Bucket := "builds" } }

/-! ## Grouping of the stage tasks by `ExecutionOrder` -/

/-- A stage task: the closure `anonFunc` of `Exec`, given by the variables it captures from
the loop over the stages, the index `idx` and the stage copy `s`. -/
structure Task where
  idx : Nat
  s : Stage
  deriving DecidableEq, Repr

/-- The Go map `workerFuncs` (`map[int][]workFunction`): its keys, each with its group. -/
abbrev WorkerFuncs := List (Int × List Task)

/-- Go map indexing `workerFuncs[k]`: the group stored under `k`, the nil slice when `k` is
not a key of the map. -/
def mapIndex (wf : WorkerFuncs) (k : Int) : List Task :=
  match wf with
  | [] => []
  | (k', g) :: rest => if k' = k then g else mapIndex rest k

/-- Go map assignment `workerFuncs[k] = g`: replaces the group of an existing key, adds the
key otherwise. -/
def mapAssign (wf : WorkerFuncs) (k : Int) (g : List Task) : WorkerFuncs :=
  match wf with
  | [] => [(k, g)]
  | (k', g') :: rest => if k' = k then (k, g) :: rest else (k', g') :: mapAssign rest k g

/-- The loop of `Exec` over `bc.JobSpec.Stages`, from index `idx` on: each stage is copied
with `DeepCopy` (a failing copy makes `Exec` return the error) and the task of the copy is
appended to the group of the copy's `ExecutionOrder`. `DeepCopy` is the method of
`spec.Stage`, which is declared outside the files at hand. -/
def groupStages (DeepCopy : Stage → Except String Stage) :
    Nat → List Stage → WorkerFuncs → Except String WorkerFuncs
  | _, [], wf => .ok wf
  | idx, ss :: rest, wf =>
    match DeepCopy ss with
    | .error e => .error e
    | .ok s =>
      groupStages DeepCopy (idx + 1) rest
        (mapAssign wf s.ExecutionOrder (mapIndex wf s.ExecutionOrder ++ [{ idx := idx, s := s }]))

/-! ## The goroutines of `Exec`: group loop, stage tasks, coordinator -/

/-- Where a stage task stands. `waiting`: at the head of its loop or asleep between two
polls. `dispatched`: inside `cpod.WorkerRunner`. `sendingErr`: blocked in `errCh <- err`.
`returned`: the function has returned (and `wg.Done` has run). -/
inductive TaskPhase where
  | notStarted
  | waiting
  | dispatched
  | sendingErr
  | returned
  deriving DecidableEq, Repr

/-- Where the coordinating goroutine stands: in its `select`, blocked in
`terminate <- true`, or returned. -/
inductive CoordPhase where
  | selecting
  | sendingTerminate
  | returned
  deriving DecidableEq, Repr

/-- What happens between a ready gate and the call of the worker: `getEnvVars` fails,
`NewCosaPodder` fails, or `WorkerRunner` is called. -/
inductive Launch where
  | getEnvVarsFails
  | newCosaPodderFails
  | runs
  deriving DecidableEq, Repr

/-- Observable events of a run, in the order they happen. -/
inductive Event where
  | started (idx : Nat)
  | dispatched (idx : Nat)
  | workerError (idx : Nat)
  | osSignal
  | ctxCancelled
  | terminateSent
  | terminateReceived (task : Option Nat)
  | groupSkipped (key : Int)
  | returned (idx : Nat)
  | loopFinished
  deriving DecidableEq, Repr

/-- What `Exec` has set up when the goroutines start: the gate context, the `remoteFiles`
prepared so far, the map `workerFuncs`, and the order in which `range workerFuncs` visits
its keys (Go leaves the iteration order of a map unspecified). -/
structure ExecCfg where
  gate : GateCtx
  remoteFiles : List RemoteFile
  workerFuncs : WorkerFuncs
  order : List Int

/-- The state of the goroutines. `phases` is indexed by stage index. `pending` holds the keys
`range workerFuncs` still has to visit; `barrier` is the group whose `wg.Wait()` the loop is
blocked in. `sig` tells whether a signal sits in the buffer of the channel `sig`, `ctxDone`
whether `ctx.Done()` is closed, `buildID` is the variable shared by all gates. -/
structure ExecState where
  phases : List TaskPhase
  coord : CoordPhase
  pending : List Int
  barrier : Option Int
  loopDone : Bool
  sig : Bool
  ctxDone : Bool
  buildID : String
  trace : List Event
  deriving DecidableEq, Repr

/-- A step taken by one goroutine or by the environment. `loop`: the group loop. `poll`: a
stage task runs its `select` and, in the default branch, the gate against the world `w`,
then `getEnvVars` and `NewCosaPodder` with outcome `o`. `workerReturns`: `WorkerRunner`
returns, with an error or without. `coordRecvErr`, `coordRecvSig`, `coordRecvCtx`: the
coordinator's `select` takes the error of a task, a signal, or the closed `ctx.Done()`.
`osSignal`: an interrupt or SIGTERM is delivered. `cancel`: the context is cancelled. -/
inductive Action where
  | loop
  | poll (idx : Nat) (w : World) (o : Launch)
  | workerReturns (idx : Nat) (failed : Bool)
  | coordRecvErr (idx : Nat)
  | coordRecvSig
  | coordRecvCtx
  | osSignal
  | cancel

/-- All tasks of the map. -/
def allTasks (wf : WorkerFuncs) : List Task :=
  match wf with
  | [] => []
  | (_, g) :: rest => g ++ allTasks rest

/-- The task of a stage index. -/
def taskAt (cfg : ExecCfg) (idx : Nat) : Option Task :=
  (allTasks cfg.workerFuncs).find? (fun t => t.idx = idx)

/-- The phase of the task of a stage index. -/
def phaseOf (st : ExecState) (idx : Nat) : TaskPhase :=
  st.phases.getD idx TaskPhase.notStarted

/-- The state with the phase of one task changed. -/
def setPhase (st : ExecState) (idx : Nat) (p : TaskPhase) : ExecState :=
  { st with phases := st.phases.set idx p }

/-- The statement `go f(wg, errorCh)` for each task of a group. -/
def startGroup (st : ExecState) (g : List Task) : ExecState :=
  g.foldl (fun acc t =>
    { setPhase acc t.idx TaskPhase.waiting with trace := acc.trace ++ [Event.started t.idx] }) st

/-- One step of the group loop. Blocked in `wg.Wait()` it goes on once every task of the
group has returned. At a key of the range it runs the `select`: with the coordinator
blocked in `terminate <- true` the receive is taken and `break` leaves the `select`, so the
range goes on to the next key; otherwise the default branch starts the tasks of the group
and waits for them. After the last key the loop is left. -/
def stepLoop (cfg : ExecCfg) (st : ExecState) : Option ExecState :=
  match st.barrier with
  | some k =>
    if (mapIndex cfg.workerFuncs k).all (fun t => phaseOf st t.idx = TaskPhase.returned) then
      some { st with barrier := none }
    else none
  | none =>
    match st.pending with
    | [] =>
      if st.loopDone then none
      else some { st with loopDone := true, trace := st.trace ++ [Event.loopFinished] }
    | k :: rest =>
      if st.coord = CoordPhase.sendingTerminate then
        some { st with
          coord := CoordPhase.selecting, pending := rest,
          trace := st.trace ++ [Event.terminateReceived none, Event.groupSkipped k] }
      else
        some { startGroup st (mapIndex cfg.workerFuncs k) with pending := rest, barrier := some k }

/-- One pass of a stage task through its loop. With the coordinator blocked in
`terminate <- true` the task receives and returns. Otherwise it builds a fresh work
specification and calls the gate: not ready, it sleeps and stays in the loop; ready, a
failure of `getEnvVars` or `NewCosaPodder` leads to `errCh <- err`, and otherwise
`WorkerRunner` is called. -/
def stepPoll (cfg : ExecCfg) (st : ExecState) (idx : Nat) (w : World) (o : Launch) :
    Option ExecState :=
  match taskAt cfg idx with
  | none => none
  | some t =>
    if phaseOf st idx ≠ TaskPhase.waiting then none
    else if st.coord = CoordPhase.sendingTerminate then
      some { setPhase st idx TaskPhase.returned with
        coord := CoordPhase.selecting,
        trace := st.trace ++ [Event.terminateReceived (some idx), Event.returned idx] }
    else
      let g := ready cfg.gate w t.s st.buildID (freshWs cfg.gate cfg.remoteFiles t.s)
      if g.ready = false then some { st with buildID := g.buildID }
      else
        match o with
        | Launch.runs =>
          some { setPhase st idx TaskPhase.dispatched with
            buildID := g.buildID, trace := st.trace ++ [Event.dispatched idx] }
        | _ => some { setPhase st idx TaskPhase.sendingErr with buildID := g.buildID }

/-- The return of `cpod.WorkerRunner`: with an error the task goes on to `errCh <- err`;
without one the body of the `select` ends and the `for` loop starts its next pass. -/
def stepWorkerReturns (st : ExecState) (idx : Nat) (failed : Bool) : Option ExecState :=
  if phaseOf st idx ≠ TaskPhase.dispatched then none
  else if failed then some (setPhase st idx TaskPhase.sendingErr)
  else some (setPhase st idx TaskPhase.waiting)

/-- The coordinator's `select` takes the error a task is sending: the task's send completes
and the task returns; the error is not nil, so the coordinator goes on to
`terminate <- true`. -/
def stepCoordRecvErr (st : ExecState) (idx : Nat) : Option ExecState :=
  if st.coord = CoordPhase.selecting ∧ phaseOf st idx = TaskPhase.sendingErr then
    some { setPhase st idx TaskPhase.returned with
      coord := CoordPhase.sendingTerminate,
      trace := st.trace ++ [Event.workerError idx, Event.returned idx, Event.terminateSent] }
  else none

/-- The coordinator's `select` takes the buffered signal and goes on to `terminate <- true`. -/
def stepCoordRecvSig (st : ExecState) : Option ExecState :=
  if st.coord = CoordPhase.selecting ∧ st.sig = true then
    some { st with sig := false, coord := CoordPhase.sendingTerminate,
                   trace := st.trace ++ [Event.terminateSent] }
  else none

/-- The coordinator's `select` takes the closed `ctx.Done()` and goes on to
`terminate <- true`. -/
def stepCoordRecvCtx (st : ExecState) : Option ExecState :=
  if st.coord = CoordPhase.selecting ∧ st.ctxDone = true then
    some { st with coord := CoordPhase.sendingTerminate,
                   trace := st.trace ++ [Event.terminateSent] }
  else none

/-- One step of the system; `none` when the step cannot be taken in the state. The
coordinator's case `<-terminate` has no step: it needs a goroutine sending on `terminate`
while the coordinator is in its `select`, and the coordinator is the only sender. -/
def step (cfg : ExecCfg) (st : ExecState) (a : Action) : Option ExecState :=
  match a with
  | Action.loop => stepLoop cfg st
  | Action.poll idx w o => stepPoll cfg st idx w o
  | Action.workerReturns idx failed => stepWorkerReturns st idx failed
  | Action.coordRecvErr idx => stepCoordRecvErr st idx
  | Action.coordRecvSig => stepCoordRecvSig st
  | Action.coordRecvCtx => stepCoordRecvCtx st
  | Action.osSignal => some { st with sig := true, trace := st.trace ++ [Event.osSignal] }
  | Action.cancel => some { st with ctxDone := true, trace := st.trace ++ [Event.ctxCancelled] }

/-- A sequence of steps. -/
def run (cfg : ExecCfg) (st : ExecState) (as : List Action) : Option ExecState :=
  match as with
  | [] => some st
  | a :: rest =>
    match step cfg st a with
    | none => none
    | some st' => run cfg st' rest

/-- The state in which the goroutines start: no task started, the coordinator in its
`select`, every key still to be visited, `buildID` empty. -/
def initExec (cfg : ExecCfg) : ExecState :=
  { phases := List.replicate (allTasks cfg.workerFuncs).length TaskPhase.notStarted,
    coord := CoordPhase.selecting, pending := cfg.order, barrier := none, loopDone := false,
    sig := false, ctxDone := false, buildID := "", trace := [] }

/-! ## Implied stages: `discoverStages` -/

/-- The `spec.Job` field read by `bc.go`. -/
structure Job where
  StrictMode : Bool := false
  deriving DecidableEq, Repr

/-- The `spec.JobSpec` fields read or written by `bc.go`. -/
structure JobSpec where
  Job : Job := {}
  Stages : List Stage := []
  deriving DecidableEq, Repr

/-- The `buildConfig` struct, without its cluster context. -/
structure buildConfig where
  JobSpecURL : String := ""
  JobSpecRef : String := ""
  JobSpecFile : String := ""
  CosaCmds : String := ""
  PodName : String := ""
  PodIP : String := ""
  PodNameSpace : String := ""
  HostIP : String := ""
  HostPod : String := ""
  JobSpec : JobSpec := {}
  deriving DecidableEq, Repr

/-- The package variable `srvBucket`. -/
def srvBucket : String := "source"

/-- The call `fmt.Sprintf(sPrefix, x)` with `sPrefix := "/bin/bash -xeu -o pipefail %s"`. -/
def sPrefix (x : String) : String := "/bin/bash -xeu -o pipefail " ++ x

/-- Outcome of the loop over the discovered scripts: the file system and the variables
`remoteFiles` and `scripts` as the loop leaves them, and the error of the `copyFile` call
that made the function return, if one did. -/
structure ScriptLoopResult (σ : Type) where
  fs : σ
  remoteFiles : List RemoteFile
  scripts : List String
  err : Option String

/-- The loop of `discoverStages` over `foundScripts`. `copyFile fs src dest` is the effect
of `copyFile(src, dest)` on the file system `fs` together with the error it returns (`none`
for nil). -/
def scriptLoop {σ : Type} (cosaSrvDir : String) (m : minioServer)
    (copyFile : σ → String → String → σ × Option String) :
    σ → List String → List RemoteFile → List String → ScriptLoopResult σ
  | fs, [], remoteFiles, scripts =>
    { fs := fs, remoteFiles := remoteFiles, scripts := scripts, err := none }
  | fs, s :: rest, remoteFiles, scripts =>
    let dn := filepath.Base s
    let destPath := filepath.Join [cosaSrvDir, srvBucket, dn]
    match copyFile fs s destPath with
    | (fs', some err) =>
      { fs := fs', remoteFiles := remoteFiles, scripts := scripts, err := some err }
    | (fs', none) =>
      scriptLoop cosaSrvDir m copyFile fs' rest
        (remoteFiles ++ [{ Bucket := srvBucket, Object := dn, Minio := m }])
        (scripts ++ [sPrefix (filepath.Join [cosaSrvDir, srvBucket, dn])])

/-- Outcome of `discoverStages`: the receiver and the file system as the call leaves them,
and the two values returned. -/
structure DiscoverResult (σ : Type) where
  bc : buildConfig
  fs : σ
  remoteFiles : List RemoteFile
  err : Option String

/-- The stage `discoverStages` appends for the commands of `COSA_CMDS`. -/
def envVarStage (cmds : String) : Stage :=
  { Description := "envVar defined commands", DirectExec := true,
    Commands := [sPrefix cmds], ID := "envVar" }

/-- The stage `discoverStages` appends for the discovered scripts. -/
def cosaShStage (scripts : List String) : Stage :=
  { Description := "*.cosa.sh scripts", DirectExec := true, Commands := scripts, ID := "cosa.sh" }

/-- The method `discoverStages`. `foundScripts` is the result of
`filepath.Glob("*.cosa.sh")`, whose error is dropped. -/
def discoverStages {σ : Type} (cosaSrvDir : String) (m : minioServer)
    (copyFile : σ → String → String → σ × Option String) (foundScripts : List String)
    (fs : σ) (bc : buildConfig) : DiscoverResult σ :=
  if bc.JobSpec.Job.StrictMode then
    { bc := bc, fs := fs, remoteFiles := [], err := none }
  else
    let bc1 : buildConfig :=
      if bc.CosaCmds ≠ "" then
        { bc with JobSpec := { bc.JobSpec with
            Stages := bc.JobSpec.Stages ++ [envVarStage bc.CosaCmds] } }
      else bc
    let r := scriptLoop cosaSrvDir m copyFile fs foundScripts [] []
    match r.err with
    | some err => { bc := bc1, fs := r.fs, remoteFiles := r.remoteFiles, err := some err }
    | none =>
      let bc2 : buildConfig :=
        if r.scripts.length > 0 then
          { bc1 with JobSpec := { bc1.JobSpec with
              Stages := bc1.JobSpec.Stages ++ [cosaShStage r.scripts] } }
        else bc1
      { bc := bc2, fs := r.fs, remoteFiles := r.remoteFiles, err := none }

/-! ## The artifact store: `cosa/cosa_reader.go` -/

namespace strings

/-- Go `strings.Split(s, sep)` for a separator of one character: the substrings between the
separators, at least one. -/
def Split (s : String) (sep : Char) : List String := (s.data.splitOn sep).map String.mk

/-- Go `strings.Join(elems, sep)`. -/
def Join (elems : List String) (sep : String) : String :=
  String.mk (sep.data.intercalate (elems.map String.data))

end strings

/-- An error value of the package: `ErrNoMinioClient`, or an error returned by the minio
library, which is never the value `ErrNoMinioClient`. -/
inductive CosaError where
  | ErrNoMinioClient
  | minio (msg : String)
  deriving DecidableEq, Repr

/-- A `minio.Object`, by the bucket and key it was requested with. -/
structure Object where
  Bucket : String
  Key : String
  deriving DecidableEq, Repr

/-- The `minio.ObjectInfo` fields used by the package. -/
structure ObjectInfo where
  Key : String
  Size : Int
  LastModified : Nat
  deriving DecidableEq, Repr

/-- The `minio.ListObjectsOptions` fields set by the package. -/
structure ListObjectsOptions where
  Recursive : Bool := false
  Prefix : String := ""
  deriving DecidableEq, Repr

/-- A `minio.Client`, by its two methods used here: `GetObject(ctx, bucket, key, opts)`, with
the message of the error it returns, and `ListObjects(ctx, bucket, opts)`, with the values
it sends on its channel, in order. -/
structure Client where
  GetObject : String → String → Except String Object
  ListObjects : String → ListObjectsOptions → List ObjectInfo

/-- The `ioBackendMinio` struct, without its context; `m` is `none` for a nil client. -/
structure ioBackendMinio where
  m : Option Client
  obj : Option Object := none
  name : String := ""

/-- Outcome of `ioBackendMinio.Open`: the receiver as the call leaves it, the values
returned, and the `GetObject` requests made, as pairs of bucket and key. -/
structure OpenResult where
  im : ioBackendMinio
  ret : Except CosaError Object
  requests : List (String × String)

/-- The method `ioBackendMinio.Open`; `none` stands for a run-time panic on `parts[1:]` or
`parts[0]`. -/
def ioBackendMinio.Open (im : ioBackendMinio) (p : String) : Option OpenResult :=
  match im.m with
  | none => some { im := im, ret := .error CosaError.ErrNoMinioClient, requests := [] }
  | some client =>
    match strings.Split p '/' with
    | [] => none
    | bucket :: rest =>
      let path := strings.Join rest "/"
      match client.GetObject bucket path with
      | .error e => some { im := im, ret := .error (CosaError.minio e), requests := [(bucket, path)] }
      | .ok obj =>
        some { im := { im with obj := some obj, name := p }, ret := .ok obj,
               requests := [(bucket, path)] }

/-- An `os.FileInfo` as `filepath.Walk` hands it to its callback. -/
structure FileInfo where
  Name : String
  Size : Int
  ModTime : Nat
  IsDir : Bool
  deriving DecidableEq, Repr

/-- The `objectInfo` struct. -/
structure objectInfo where
  info : ObjectInfo
  name : String
  deriving DecidableEq, Repr

/-- The method `objectInfo.IsDir`. -/
def objectInfo.IsDir (_ : objectInfo) : Bool := false

/-- The method `objectInfo.ModTime`. -/
def objectInfo.ModTime (ao : objectInfo) : Nat := ao.info.LastModified

/-- The method `objectInfo.Mode`, the constant `0644`. -/
def objectInfo.Mode (_ : objectInfo) : Nat := 0o644

/-- The method `objectInfo.Name`. -/
def objectInfo.Name (ao : objectInfo) : String := filepath.Base ao.name

/-- The method `objectInfo.Size`. -/
def objectInfo.Size (ao : objectInfo) : Int := ao.info.Size

/-- The function `defaultWalkFunc`, by the values it sends on the channel it returns, in
order. `Walk p` lists the callbacks `filepath.Walk` makes under `p`: the file information,
or the error the callback is called with. -/
def defaultWalkFunc (Walk : String → List (Except String FileInfo)) (p : String) :
    List objectInfo :=
  (Walk p).filterMap (fun entry =>
    match entry with
    | .error _ => none
    | .ok info =>
      some { name := filepath.Join [p, info.Name],
             info := { Key := info.Name, Size := info.Size, LastModified := info.ModTime } })

/-- The function returned by `createMinioWalkFunc(m)`, by the values it sends on the channel
it returns, in order; `none` stands for a run-time panic on `parts[0]`. -/
def createMinioWalkFunc (m : Client) (p : String) : Option (List objectInfo) :=
  match strings.Split p '/' with
  | [] => none
  | bucket :: rest =>
    let ao : ListObjectsOptions :=
      { Recursive := true,
        Prefix := if (bucket :: rest).length > 0 then filepath.Join rest else "" }
    some ((m.ListObjects bucket ao).map (fun val =>
      { info := val, name := filepath.Join [bucket, val.Key] }))

/-- An entry of a directory tree: the name and size its file information reports, whether
it is a directory, and its path below the root. -/
structure TreeEntry where
  Name : String
  Path : String
  Size : Int
  IsDir : Bool
  deriving DecidableEq, Repr

/-- The callbacks of `filepath.Walk` over a readable tree: one per entry, the root and every
directory included. -/
def walkOfTree (entries : List TreeEntry) : List (Except String FileInfo) :=
  entries.map (fun e => .ok { Name := e.Name, Size := e.Size, ModTime := 0, IsDir := e.IsDir })

/-- The objects of a bucket with the content of a tree: one object per regular file, keyed
by the path of the file below the root. -/
def objectsOfTree (entries : List TreeEntry) : List ObjectInfo :=
  (entries.filter (fun e => !e.IsDir)).map (fun e =>
    { Key := e.Path, Size := e.Size, LastModified := 0 })

/-- A client of a store holding one bucket: listing returns the objects whose key starts
with the prefix asked for. -/
def bucketClient (bucket : String) (objects : List ObjectInfo) : Client :=
  { GetObject := fun b k =>
      if b = bucket ∧ objects.any (fun o => o.Key = k) then .ok { Bucket := b, Key := k }
      else .error "The specified key does not exist.",
    ListObjects := fun b opts =>
      if b = bucket then objects.filter (fun o => strings.HasPrefix o.Key opts.Prefix) else [] }

/-- The name and size of each descriptor of a listing. -/
def nameSizes (l : List objectInfo) : List (String × Int) :=
  l.map (fun ao => (ao.Name, ao.Size))

/-! ## The builds index: `cosa/builds.go` -/

/-- The `build` struct of a builds index. -/
structure build where
  ID : String
  Arches : List String
  deriving DecidableEq, Repr

/-- The `buildsJSON` struct. -/
structure buildsJSON where
  SchemaVersion : String := ""
  Builds : List build := []
  TimeStamp : String := ""
  deriving DecidableEq, Repr

/-- The inner loop of `getLatest` over the architectures of one build: whether it reaches
the `return`. -/
def archLoop (arch : String) : List String → Bool
  | [] => false
  | a :: rest => if a = arch then true else archLoop arch rest

/-- The outer loop of `getLatest` over the builds, with the final `return "", false`. -/
def buildLoop (arch : String) : List build → String × Bool
  | [] => ("", false)
  | b :: rest => if archLoop arch b.Arches then (b.ID, true) else buildLoop arch rest

/-- The method `buildsJSON.getLatest`. -/
def buildsJSON.getLatest (b : buildsJSON) (arch : String) : String × Bool :=
  buildLoop arch b.Builds

/-! ## The backend switch of `cosa/cosa_reader.go` -/

/-- The `ioBackendFile` struct, by the path of the file it opened last. -/
structure ioBackendFile where
  path : String := ""

/-- A value of the interface `ioBackender`: one of its two implementations. -/
inductive ioBackender where
  | file (b : ioBackendFile)
  | minio (b : ioBackendMinio)

/-- A value of the type `walkerFn`: `defaultWalkFunc`, or the function made by
`createMinioWalkFunc(m)`. -/
inductive walkerFn where
  | defaultWalkFunc
  | minioWalkFunc (m : Client)

/-- The package variables `ioBackend` and `walkFn`. -/
structure CosaPkg where
  ioBackend : ioBackender
  walkFn : walkerFn

/-- The package variables as their declarations initialise them. -/
def CosaPkg.initial : CosaPkg :=
  { ioBackend := ioBackender.file {}, walkFn := walkerFn.defaultWalkFunc }

/-- The function `SetIOBackendMinio`, with the message of the error it returns; `m` is
`none` for a nil client. -/
def SetIOBackendMinio (pkg : CosaPkg) (m : Option Client) : CosaPkg × Option String :=
  match m with
  | none => (pkg, some "minio client must not be nil")
  | some c =>
    ({ ioBackend := ioBackender.minio { m := some c }, walkFn := walkerFn.minioWalkFunc c }, none)

/-- The function `SetIOBackendFile`. -/
def SetIOBackendFile (pkg : CosaPkg) : CosaPkg :=
  { pkg with ioBackend := ioBackender.file {} }

/-- What a call of the package function `Open` did: `os.Open` through the file backend,
with its result, or `ioBackendMinio.Open` through the object store. -/
inductive Opened where
  | file (path : String) (ret : Except String Object)
  | objectStore (r : Option OpenResult)

/-- The package function `Open`: `newBackend()` hands out `ioBackend`, whose `Open` is
called. `osOpen` is the result of `os.Open`. -/
def Open (osOpen : String → Except String Object) (pkg : CosaPkg) (p : String) :
    Opened × CosaPkg :=
  match pkg.ioBackend with
  | ioBackender.file _ =>
    (Opened.file p (osOpen p), { pkg with ioBackend := ioBackender.file { path := p } })
  | ioBackender.minio im =>
    (Opened.objectStore (im.Open p),
     match im.Open p with
     | some r => { pkg with ioBackend := ioBackender.minio r.im }
     | none => pkg)

/-- What a call of `walkFn` listed: a local directory walk, or a listing of the object
store. -/
inductive Listed where
  | file (l : List objectInfo)
  | objectStore (l : Option (List objectInfo))

/-- A call `walkFn(p)` of the package variable. -/
def callWalkFn (Walk : String → List (Except String FileInfo)) (pkg : CosaPkg) (p : String) :
    Listed :=
  match pkg.walkFn with
  | walkerFn.defaultWalkFunc => Listed.file (defaultWalkFunc Walk p)
  | walkerFn.minioWalkFunc m => Listed.objectStore (createMinioWalkFunc m p)

/-- Whether a call of `Open` was served by the local file backend. -/
def Opened.byFile : Opened → Bool
  | Opened.file _ _ => true
  | Opened.objectStore _ => false

/-- Whether a call of `walkFn` was served by the local file backend. -/
def Listed.byFile : Listed → Bool
  | Listed.file _ => true
  | Listed.objectStore _ => false

/-! ## The OpenShift build client and `newBC`: `ocp/ocp.go`, `ocp/bc.go` -/

/-- The fields of `buildapiv1.Build` read by `ocpBuildClient`: `Spec.Strategy.Type` and
`Spec.Source.ContextDir`. -/
structure ApiBuild where
  StrategyType : String := ""
  ContextDir : String := ""
  deriving DecidableEq, Repr

/-- What `buildJSONCodec.Decode` and the type assertion to `*buildapiv1.Build` make of the
value of `BUILD`: a decoding error, an object of another type, or a build. -/
inductive Decoded where
  | failed
  | other
  | build (b : ApiBuild)
  deriving DecidableEq, Repr

/-- The errors of `ocpBuildClient` and `newBC`: the package value `ErrNoOCPBuildSpec`, and
the errors made with `fmt.Errorf`, by their format and arguments. -/
inductive OcpError where
  | ErrNoOCPBuildSpec
  | unsupportedBuildStrategy
  | contextDirDoesNotExist (dir : String)
  | failedToSwitchToContextDir (dir : String) (err : String)
  deriving DecidableEq, Repr

/-- The package variables `apiBuild` and `cosaSrvDir`. -/
structure OcpVars where
  apiBuild : Option ApiBuild
  cosaSrvDir : String
  deriving DecidableEq, Repr

/-- The function `ocpBuildClient`, the same in `gangplank/ocp` and `entrypoint/ocp`:
the package variables as the call leaves them and the error returned. `LookupEnv` is
`os.LookupEnv`, `Decode` the decoding of the value of `BUILD`. -/
def ocpBuildClient (LookupEnv : String → Option String) (Decode : String → Decoded)
    (vars : OcpVars) : OcpVars × Option OcpError :=
  match LookupEnv "BUILD" with
  | none => (vars, some OcpError.ErrNoOCPBuildSpec)
  | some envVarBuild =>
    match Decode envVarBuild with
    | Decoded.failed => (vars, some OcpError.ErrNoOCPBuildSpec)
    | Decoded.other => ({ vars with apiBuild := none }, some OcpError.ErrNoOCPBuildSpec)
    | Decoded.build b =>
      let vars1 : OcpVars := { vars with apiBuild := some b }
      if b.StrategyType ≠ "" ∧ b.StrategyType ≠ "Custom" then
        (vars1, some OcpError.unsupportedBuildStrategy)
      else
        let cDir := b.ContextDir
        if cDir ≠ "" ∧ cDir ≠ "/" then ({ vars1 with cosaSrvDir := cDir }, none)
        else (vars1, none)

/-- What `newBC` finds outside the package. `kubeErr` and `acPresent`: whether `GetClient`
returned an error and a client. `hostPod`: the pod name made from the annotations of the
build. `runnerTag`, `annotatedIP`: whether the build carries the runner annotation, and its
IP annotation. `podIP`: the address `getPodIP` returns. `statNotExist`: whether `os.Stat`
reports that a directory does not exist. `Chdir`: the error of `os.Chdir`.
`DefaultJobSpecFile`: the constant of the package `spec`. `JobSpecFromFile`,
`JobSpecFromRepo`: the functions of the package `spec`, with the value and the error they
return. -/
structure NewBCEnv where
  LookupEnv : String → Option String
  Decode : String → Decoded
  kubeErr : Bool
  acPresent : Bool
  hostPod : String
  runnerTag : Bool
  annotatedIP : String
  podIP : String
  statNotExist : String → Bool
  Chdir : String → Option String
  DefaultJobSpecFile : String
  JobSpecFromFile : String → JobSpec × Option String
  JobSpecFromRepo : String → String → String → JobSpec × Option String

/-- The loop of `newBC` over the fields of `buildConfig`: a field with an `envVar` tag takes
the value of the environment variable of that name when it is set. -/
def envFields (LookupEnv : String → Option String) (v : buildConfig) : buildConfig :=
  { v with
    JobSpecURL := (LookupEnv "COSA_JOBSPEC_URL").getD v.JobSpecURL,
    JobSpecRef := (LookupEnv "COSA_JOBSPEC_REF").getD v.JobSpecRef,
    JobSpecFile := (LookupEnv "COSA_JOBSPEC_FILE").getD v.JobSpecFile,
    CosaCmds := (LookupEnv "COSA_CMDS").getD v.CosaCmds,
    PodName := (LookupEnv "COSA_POD_NAME").getD v.PodName,
    PodIP := (LookupEnv "COSA_POD_IP").getD v.PodIP,
    PodNameSpace := (LookupEnv "COSA_POD_NAMESPACE").getD v.PodNameSpace }

/-- The last block of `newBC`: the job specification file is named, read with
`JobSpecFromFile`, and `v.JobSpec` is assigned as the two tests of `err != nil` say. -/
def locateJobSpec (env : NewBCEnv) (cosaSrvDir : String) (v : buildConfig) : buildConfig :=
  let jsF := if v.JobSpecFile ≠ "" then v.JobSpecFile else env.DefaultJobSpecFile
  let v1 : buildConfig := { v with JobSpecFile := jsF }
  let jsPath := filepath.Join [cosaSrvDir, jsF]
  match env.JobSpecFromFile jsPath with
  | (js, some _) => { v1 with JobSpec := js }
  | (_, none) =>
    match env.JobSpecFromRepo v1.JobSpecURL v1.JobSpecFile (filepath.Base jsPath) with
    | (njs, some _) => { v1 with JobSpec := njs }
    | (_, none) => v1

/-- Outcome of `newBC`: the package variables as the call leaves them and the two values
returned, `none` standing for nil. -/
structure NewBCResult where
  vars : OcpVars
  bc : Option buildConfig
  err : Option OcpError
  deriving DecidableEq, Repr

/-- The function `newBC`. -/
def newBC (env : NewBCEnv) (vars : OcpVars) : NewBCResult :=
  let v := envFields env.LookupEnv {}
  match ocpBuildClient env.LookupEnv env.Decode vars with
  | (vars1, some err) => { vars := vars1, bc := none, err := some err }
  | (vars1, none) =>
    let v1 : buildConfig :=
      if env.kubeErr ∧ env.acPresent then
        { v with HostPod := env.hostPod,
                 HostIP := if env.runnerTag then env.annotatedIP else env.podIP }
      else v
    if env.statNotExist vars1.cosaSrvDir then
      { vars := vars1, bc := none,
        err := some (OcpError.contextDirDoesNotExist vars1.cosaSrvDir) }
    else
      match env.Chdir vars1.cosaSrvDir with
      | some e =>
        { vars := vars1, bc := none,
          err := some (OcpError.failedToSwitchToContextDir vars1.cosaSrvDir e) }
      | none =>
        { vars := vars1, bc := some (locateJobSpec env vars1.cosaSrvDir v1), err := none }

/-! ## The upload to the registry: `uploadOstreeToRegistry` -/

/-- The `registryUpload` struct. -/
structure registryUpload where
  outputRegistry : String
  outputImage : String
  pushCfgPath : String
  deriving DecidableEq, Repr

/-- Outcome of `uploadOstreeToRegistry`: the message of the error returned, and the
commands run with `cmd.Run()`, each by its program and the arguments handed to
`exec.CommandContext` after it. -/
structure UploadResult where
  err : Option String
  ran : List (String × List String)
  deriving DecidableEq, Repr

/-- The function `uploadOstreeToRegistry`. `ostreePath` reads
`build.BuildArtifacts.Ostree.Path`; `Run` is the error of `cmd.Run()` for a program and its
arguments, `CombinedOutput` the output `cmd.CombinedOutput()` hands back after it. -/
def uploadOstreeToRegistry (ostreePath : Build → String)
    (Run : String → List String → Option String)
    (CombinedOutput : String → List String → String)
    (build : Option Build) (r : Option registryUpload) : UploadResult :=
  match build with
  | none => { err := some "build is nil", ran := [] }
  | some build =>
    match r with
    | none => { err := some "upload registry is nil", ran := [] }
    | some r =>
      let args : List String :=
        ["podman", "push",
         "--authfile=" ++ r.pushCfgPath,
         "oci-archive:" ++ ostreePath build,
         r.outputRegistry ++ "/" ++ r.outputImage]
      let name := args.headD ""
      let arg := args.take 1
      match Run name arg with
      | some _ =>
        { err := some ("upload to registry failed: " ++ CombinedOutput name arg),
          ran := [(name, arg)] }
      | none => { err := none, ran := [(name, arg)] }

/-! ## Definitions used to state the properties of the gate -/

/-- A path element that `filepath.Clean` leaves alone: not empty, free of separators, and
neither `.` nor `..`. -/
def plainElem (e : String) : Prop :=
  e.data ≠ [] ∧ '/' ∉ e.data ∧ e.data ≠ ['.'] ∧ e.data ≠ ['.', '.']

instance (e : String) : Decidable (plainElem e) := by
  unfold plainElem; infer_instance

/-- The build identifier held after a poll's metadata read. -/
def heldAfter (mBuild : Option Build) (buildID : String) : String :=
  match mBuild with
  | some b => b.BuildID
  | none => buildID

/-- The reference the gate appends for a resolved required artifact. -/
def artifactRef (c : GateCtx) (buildPath : String) (a : Artifact) : RemoteFile :=
  { Artifact := some a, Bucket := "builds", Minio := c.m,
    Object := filepath.Join [buildPath, filepath.Base a.Path] }

/-- The reference the gate appends for a walked entry, if it appends one. -/
def metaRef (c : GateCtx) (buildPath : String) (info : Option String) : Option RemoteFile :=
  match info with
  | none => none
  | some name =>
    if strings.HasPrefix (filepath.Base name) "meta" = true ∧
        strings.HasSuffix (filepath.Base name) ".json" = true then
      some { Artifact := none, Bucket := "builds", Minio := c.m,
             Object := filepath.Join [buildPath, filepath.Base name], Compressed := false }
    else none

/-- A clean absolute directory path such as `/srv`: a separator followed by plain elements
joined by separators. -/
def cleanRooted (d : String) : Prop :=
  ∃ segs : List (List Char), segs ≠ [] ∧
    (∀ seg ∈ segs, seg ≠ [] ∧ '/' ∉ seg ∧ seg ≠ ['.'] ∧ seg ≠ ['.', '.']) ∧
    d.data = '/' :: ['/'].intercalate segs

/-! ## Definitions used to state the properties of the goroutines -/

/-- An action in which nothing fails and nothing asks for termination: a step of the group
loop, a pass of a stage task that calls the worker when its gate is ready, or the return of
a worker without error. -/
def Action.quiet : Action → Bool
  | Action.loop => true
  | Action.poll _ _ Launch.runs => true
  | Action.workerReturns _ false => true
  | _ => false

/-- A state in which the coordinator is in its `select` and no stage task has returned or is
sending an error. -/
def calm (st : ExecState) : Prop :=
  st.coord = CoordPhase.selecting ∧
  ∀ p ∈ st.phases, p ≠ TaskPhase.returned ∧ p ≠ TaskPhase.sendingErr

/-- A state in which the group loop has not finished and has a non-empty group in front of
it: the one it waits for or the ones it still has to visit. -/
def loopHeld (cfg : ExecCfg) (st : ExecState) : Prop :=
  st.loopDone = false ∧
  (st.barrier = none → st.pending ≠ []) ∧
  (∀ k, st.barrier = some k → mapIndex cfg.workerFuncs k ≠ []) ∧
  (∀ k ∈ st.pending, mapIndex cfg.workerFuncs k ≠ [])

/-- Whether an action is a pass of a stage task through its loop. -/
def Action.isPoll : Action → Bool
  | Action.poll _ _ _ => true
  | _ => false

/-! ## Sample inputs -/

/-- A gate context: working directory `/srv`, architecture `x86_64`. -/
def demoCtx : GateCtx :=
  { cosaSrvDir := "/srv", arch := "x86_64", m := { dir := "/srv", Host := "10.0.0.7" } }

/-- A metadata record of build `35.1` listing one artifact, `ostree`. -/
def demoBuild : Build :=
  { BuildID := "35.1",
    GetArtifact := fun name =>
      if name = "ostree" then some { Path := "/srv/builds/35.1/x86_64/fcos-35.1-ostree.ociarchive" }
      else none }

/-- A working tree holding build `35.1`: the record is read both as the latest build and by
its identifier, and its directory holds two metadata files among other entries. -/
def demoWorld : World :=
  { ReadBuild := fun _ id _ => if id = "" ∨ id = "35.1" then some demoBuild else none,
    Walk := fun root =>
      if root = "/srv/builds/35.1/x86_64" then
        [some "x86_64", some "commitmeta.json", some "meta.json", some "meta.coreos.json",
         some "metal.raw", none]
      else [none] }

/-- A working tree without any build. -/
def emptyWorld : World :=
  { ReadBuild := fun _ _ _ => none, Walk := fun _ => [none] }

/-- A stage without required artifacts. -/
def stageFree : Stage := { ID := "base", Commands := ["cosa init"] }

/-- A stage requiring the artifact `ostree`. -/
def stageOstree : Stage :=
  { ID := "qemu", Commands := ["cosa buildextend-qemu"], RequireArtifacts := ["ostree"] }

/-- Three stages of one execution group: `a` requires nothing, `b` and `c` require `ostree`. -/
def oneGroupStages : List Stage :=
  [{ ID := "a" }, { ID := "b", RequireArtifacts := ["ostree"] },
   { ID := "c", RequireArtifacts := ["ostree"] }]

/-- The goroutines of `Exec` for `oneGroupStages`. -/
def oneGroupCfg : ExecCfg :=
  { gate := demoCtx, remoteFiles := [],
    workerFuncs :=
      [(0, [{ idx := 0, s := { ID := "a" } },
            { idx := 1, s := { ID := "b", RequireArtifacts := ["ostree"] } },
            { idx := 2, s := { ID := "c", RequireArtifacts := ["ostree"] } }])],
    order := [0] }

/-- Three stages without required artifacts, of ordinals 1, 2 and 3. -/
def threeGroupStages : List Stage :=
  [{ ID := "a", ExecutionOrder := 1 }, { ID := "b", ExecutionOrder := 2 },
   { ID := "c", ExecutionOrder := 3 }]

/-- The goroutines of `Exec` for `threeGroupStages`, the range visiting the keys 1, 2, 3. -/
def threeGroupCfg : ExecCfg :=
  { gate := demoCtx, remoteFiles := [],
    workerFuncs :=
      [(1, [{ idx := 0, s := { ID := "a", ExecutionOrder := 1 } }]),
       (2, [{ idx := 1, s := { ID := "b", ExecutionOrder := 2 } }]),
       (3, [{ idx := 2, s := { ID := "c", ExecutionOrder := 3 } }])],
    order := [1, 2, 3] }

/-- Two stages without required artifacts: `a` of ordinal 1 and `b` of ordinal 2. -/
def twoGroupStages : List Stage :=
  [{ ID := "a", ExecutionOrder := 1 }, { ID := "b", ExecutionOrder := 2 }]

/-- The goroutines of `Exec` for `twoGroupStages`, the range visiting key 2 before key 1. -/
def twoGroupCfg : ExecCfg :=
  { gate := demoCtx, remoteFiles := [],
    workerFuncs :=
      [(1, [{ idx := 0, s := { ID := "a", ExecutionOrder := 1 } }]),
       (2, [{ idx := 1, s := { ID := "b", ExecutionOrder := 2 } }])],
    order := [2, 1] }

/-- Two stages without required artifacts, both of ordinal 1. -/
def sameOrdinalStages : List Stage :=
  [{ ID := "a", ExecutionOrder := 1 }, { ID := "b", ExecutionOrder := 1 }]

/-- The goroutines of `Exec` for `sameOrdinalStages`. -/
def sameOrdinalCfg : ExecCfg :=
  { gate := demoCtx, remoteFiles := [],
    workerFuncs :=
      [(1, [{ idx := 0, s := { ID := "a", ExecutionOrder := 1 } },
            { idx := 1, s := { ID := "b", ExecutionOrder := 1 } }])],
    order := [1] }

/-- A build configuration with commands in `COSA_CMDS` and no stage of its own. -/
def impliedBc : buildConfig := { CosaCmds := "cosa build" }

/-- A build configuration in strict mode, with commands in `COSA_CMDS` and one stage. -/
def strictBc : buildConfig :=
  { CosaCmds := "cosa build",
    JobSpec := { Job := { StrictMode := true }, Stages := [stageFree] } }

/-- A `copyFile` that succeeds on every file. -/
def copyOk : Unit → String → String → Unit × Option String := fun fs _ _ => (fs, none)

/-- The goroutines of `Exec` for the two implied stages of `impliedBc` with one discovered
script, `build.cosa.sh`. -/
def impliedCfg : ExecCfg :=
  { gate := demoCtx,
    remoteFiles := [{ Bucket := "source", Object := "build.cosa.sh", Minio := demoCtx.m }],
    workerFuncs :=
      [(0, [{ idx := 0, s := envVarStage "cosa build" },
            { idx := 1,
              s := cosaShStage ["/bin/bash -xeu -o pipefail /srv/source/build.cosa.sh"] }])],
    order := [0] }

/-- The state of `oneGroupCfg` in which stage `a` has failed in its worker and is sending
the error, while `b` and `c` wait. -/
def sendingState : ExecState :=
  { phases := [TaskPhase.sendingErr, TaskPhase.waiting, TaskPhase.waiting],
    coord := CoordPhase.selecting, pending := [], barrier := some 0, loopDone := false,
    sig := false, ctxDone := false, buildID := "",
    trace := [Event.started 0, Event.started 1, Event.started 2, Event.dispatched 0] }

/-- A tree rooted at the directory `builds`: the builds index, and the directory of build
`35.1` with its metadata file. -/
def demoTree : List TreeEntry :=
  [{ Name := "builds", Path := "", Size := 4096, IsDir := true },
   { Name := "builds.json", Path := "builds.json", Size := 120, IsDir := false },
   { Name := "35.1", Path := "35.1", Size := 4096, IsDir := true },
   { Name := "meta.json", Path := "35.1/meta.json", Size := 10, IsDir := false }]

/-- A backend with the client of a bucket `builds` holding the content of `demoTree`. -/
def demoBackend : ioBackendMinio :=
  { m := some (bucketClient "builds" (objectsOfTree demoTree)) }

/-- A job specification with one stage, as a job specification file holds it. -/
def fileSpec : JobSpec := { Stages := [stageFree] }

/-- A job specification with one stage, as the repository holds it. -/
def repoSpec : JobSpec := { Stages := [stageOstree] }

/-- An environment of `newBC` in which the build decodes, the context directory is there,
the local job specification file `/srv/jobspec.yaml` reads as `fileSpec`, and the repository
cannot be read. -/
def localSpecEnv : NewBCEnv :=
  { LookupEnv := fun name => if name = "BUILD" then some "build" else none,
    Decode := fun _ => Decoded.build {},
    kubeErr := false, acPresent := true, hostPod := "", runnerTag := false,
    annotatedIP := "", podIP := "",
    statNotExist := fun _ => false,
    Chdir := fun _ => none,
    DefaultJobSpecFile := "jobspec.yaml",
    JobSpecFromFile := fun p =>
      if p = "/srv/jobspec.yaml" then (fileSpec, none) else ({}, some "no such file"),
    JobSpecFromRepo := fun _ _ _ => ({}, some "no repository") }

/-- An environment of `newBC` like `localSpecEnv`, but without a local job specification
file and with a repository that reads as `repoSpec`. -/
def repoSpecEnv : NewBCEnv :=
  { localSpecEnv with
    JobSpecFromFile := fun _ => ({}, some "no such file"),
    JobSpecFromRepo := fun _ _ _ => (repoSpec, none) }

/-- The package variables before `newBC`: no build, working directory `/srv`. -/
def srvVars : OcpVars := { apiBuild := none, cosaSrvDir := "/srv" }

/-- A registry configuration. -/
def demoRegistry : registryUpload :=
  { outputRegistry := "registry.local", outputImage := "fcos:35", pushCfgPath := "/cfg/auth" }

/-- A working tree in which only the directory of build `35.1` holds a record, and that
record reports the identifier `36.2`: reading the latest build finds nothing. -/
def rotatedWorld : World :=
  { ReadBuild := fun _ id _ =>
      if id = "35.1" then some { BuildID := "36.2", GetArtifact := fun _ => none } else none,
    Walk := fun _ => [none] }

/-- The goroutines of `Exec` for a job of one stage without required artifacts. -/
def oneStageCfg : ExecCfg :=
  { gate := demoCtx, remoteFiles := [],
    workerFuncs := [(0, [{ idx := 0, s := { ID := "a" } }])],
    order := [0] }

/-- The state of `oneStageCfg` in which the context was cancelled while the worker of the
stage ran, the coordinator went on to `terminate <- true`, and the worker then failed: the
stage task is in `errCh <- err`. -/
def blockedState : ExecState :=
  { phases := [TaskPhase.sendingErr], coord := CoordPhase.sendingTerminate, pending := [],
    barrier := some 0, loopDone := false, sig := false, ctxDone := true, buildID := "",
    trace := [Event.started 0, Event.dispatched 0, Event.ctxCancelled, Event.terminateSent] }

/-- A state that differs from `blockedState` at most in the signal buffer and in events of
the environment added to the trace: the task is in its send, the coordinator in its own,
and the group loop waits for the task. -/
def blocked (st : ExecState) : Prop :=
  st.phases = [TaskPhase.sendingErr] ∧ st.coord = CoordPhase.sendingTerminate ∧
  st.pending = [] ∧ st.barrier = some 0 ∧ st.loopDone = false ∧
  Event.workerError 0 ∉ st.trace ∧ Event.returned 0 ∉ st.trace

/-! ## Theorems -/

/-! ### The path helpers on sample paths -/

example : filepath.Clean "a//b/./c/.." = "a/b" := by decide
example : filepath.Clean "/../a/b/../../.." = "/" := by decide
example : filepath.Clean "../../a/.." = "../.." := by decide
example : filepath.Clean "" = "." := by decide
example : filepath.Join ["", "x86_64"] = "x86_64" := by decide
example : filepath.Join ["/srv", "builds", "35.1/x86_64"] = "/srv/builds/35.1/x86_64" := by decide
example : filepath.Join ["", ""] = "" := by decide
example : filepath.Base "/srv/builds/35.1/x86_64/meta.json" = "meta.json" := by decide
example : filepath.Base "a/b///" = "b" := by decide
example : filepath.Base "///" = "/" := by decide
example : filepath.Base "" = "." := by decide
example : strings.HasPrefix "meta.json" "meta" = true := by decide
example : strings.HasSuffix "meta.json" ".json" = true := by decide
example : strings.HasSuffix "meta.jso" ".json" = false := by decide

theorem filepath.cleanStep_plain (rooted : Bool) (out : List (List Char)) (seg : List Char)
    (h1 : seg ≠ []) (h2 : seg ≠ ['.']) (h3 : seg ≠ ['.', '.']) :
    filepath.cleanStep rooted out seg = seg :: out := by
  simp [filepath.cleanStep, h1, h2, h3]

theorem filepath.foldl_cleanStep_plain (rooted : Bool) (segs : List (List Char))
    (h : ∀ seg ∈ segs, seg ≠ [] ∧ seg ≠ ['.'] ∧ seg ≠ ['.', '.']) (out : List (List Char)) :
    segs.foldl (filepath.cleanStep rooted) out = segs.reverse ++ out := by
  induction segs generalizing out with
  | nil => simp
  | cons seg rest ih =>
    have hs := h seg (List.mem_cons_self _ _)
    rw [List.foldl_cons, filepath.cleanStep_plain rooted out seg hs.1 hs.2.1 hs.2.2,
      ih (fun x hx => h x (List.mem_cons_of_mem _ hx))]
    simp

theorem filepath.cleanChars_intercalate (segs : List (List Char)) (hne : segs ≠ [])
    (h : ∀ seg ∈ segs, seg ≠ [] ∧ '/' ∉ seg ∧ seg ≠ ['.'] ∧ seg ≠ ['.', '.']) :
    filepath.cleanChars (['/'].intercalate segs) = ['/'].intercalate segs := by
  obtain ⟨a, rest, rfl⟩ := List.exists_cons_of_ne_nil hne
  have ha := h a (List.mem_cons_self _ _)
  obtain ⟨x, xs, rfl⟩ := List.exists_cons_of_ne_nil ha.1
  have hx : x ≠ '/' := by
    intro hx
    exact ha.2.1 (by simp [hx])
  have hsplit : (['/'].intercalate ((x :: xs) :: rest)).splitOn '/' = (x :: xs) :: rest :=
    List.splitOn_intercalate _ '/' (fun l hl => (h l hl).2.1) (by simp)
  have hhead : ['/'].intercalate ((x :: xs) :: rest) = x :: (['/'].intercalate ((x :: xs) :: rest)).tail := by
    cases rest <;> simp [List.intercalate, List.intersperse]
  have hfold := filepath.foldl_cleanStep_plain false ((x :: xs) :: rest)
    (fun seg hs => ⟨(h seg hs).1, (h seg hs).2.2.1, (h seg hs).2.2.2⟩) []
  unfold filepath.cleanChars
  rw [hsplit]
  have hnil : ['/'].intercalate ((x :: xs) :: rest) ≠ [] := by
    rw [hhead]; simp
  have hroot : (decide ((['/'].intercalate ((x :: xs) :: rest)).head? = some '/')) = false := by
    rw [hhead]; simp [hx]
  simp only [hnil, if_false, hroot, hfold]
  simp

theorem filepath.Join_pair_plain (a b : String) (ha : plainElem a) (hb : plainElem b) :
    filepath.Join [a, b] = a ++ "/" ++ b := by
  have hc := filepath.cleanChars_intercalate [a.data, b.data] (by simp)
    (by
      intro seg hs
      simp only [List.mem_cons, List.mem_singleton, List.not_mem_nil, or_false] at hs
      rcases hs with rfl | rfl
      · exact ha
      · exact hb)
  unfold filepath.Join
  simp only [List.dropWhile, ha.1, decide_False, List.map_cons, List.map_nil, hc]
  apply String.ext
  simp [List.intercalate, List.intersperse]

theorem filepath.Join_key_plain (a b n : String) (ha : plainElem a) (hb : plainElem b)
    (hn : plainElem n) :
    filepath.Join [filepath.Join [a, b], n] = a ++ "/" ++ b ++ "/" ++ n := by
  have hc := filepath.cleanChars_intercalate [a.data, b.data, n.data] (by simp)
    (by
      intro seg hs
      simp only [List.mem_cons, List.mem_singleton, List.not_mem_nil, or_false] at hs
      rcases hs with rfl | rfl | rfl
      · exact ha
      · exact hb
      · exact hn)
  have hi : ['/'].intercalate [(a ++ "/" ++ b).data, n.data]
      = ['/'].intercalate [a.data, b.data, n.data] := by
    simp [List.intercalate, List.intersperse]
  have hne : (a ++ "/" ++ b).data ≠ [] := by simp
  rw [filepath.Join_pair_plain a b ha hb]
  unfold filepath.Join
  simp only [List.dropWhile, hne, decide_False, List.map_cons, List.map_nil, hi, hc]
  apply String.ext
  simp [List.intercalate, List.intersperse]

/-- An `os.FileInfo` name (non-empty, free of separators) is its own `filepath.Base`. -/
theorem filepath.Base_eq_self (n : String) (h1 : n.data ≠ []) (h2 : '/' ∉ n.data) :
    filepath.Base n = n := by
  unfold filepath.Base filepath.baseChars
  have hd : n.data.reverse.dropWhile (fun c => decide (c = '/')) = n.data.reverse := by
    obtain ⟨x, xs, hx⟩ := List.exists_cons_of_ne_nil (l := n.data.reverse) (by simpa using h1)
    have : x ≠ '/' := by
      intro hxe
      apply h2
      have : x ∈ n.data.reverse := by rw [hx]; simp
      simpa [hxe] using this
    rw [hx]; simp [List.dropWhile, this]
  have ht : n.data.reverse.takeWhile (fun c => decide (c ≠ '/')) = n.data.reverse := by
    rw [List.takeWhile_eq_self_iff]
    intro x hx
    have : x ≠ '/' := by
      intro hxe
      apply h2
      simpa [hxe] using hx
    simpa using this
  simp only [h1, if_false, hd, ht, List.reverse_reverse]

/-! ### The gate -/

theorem requireLoop_cons_some (c : GateCtx) (b : Build) (bp name : String) (rest : List String)
    (files : List RemoteFile) (n : Nat) (art : Artifact) (hg : b.GetArtifact name = some art) :
    requireLoop c (some b) bp (name :: rest) files n
      = requireLoop c (some b) bp rest (files ++ [artifactRef c bp art]) (n + 1) := by
  simp only [requireLoop, hg, artifactRef]

theorem requireLoop_spec (c : GateCtx) (mb : Option Build) (bp : String) :
    ∀ (req : List String) (files : List RemoteFile) (n : Nat),
    ∃ arts : List Artifact,
      (requireLoop c mb bp req files n).2.1 = files ++ arts.map (artifactRef c bp) ∧
      (requireLoop c mb bp req files n).2.2 = n + arts.length ∧
      ((requireLoop c mb bp req files n).1 = false →
        List.Forall₂ (fun name a => ∃ b, mb = some b ∧ b.GetArtifact name = some a) req arts) := by
  intro req
  induction req with
  | nil => intro files n; exact ⟨[], by simp [requireLoop]⟩
  | cons name rest ih =>
    intro files n
    cases mb with
    | none => exact ⟨[], by simp [requireLoop]⟩
    | some b =>
      cases hg : b.GetArtifact name with
      | none => exact ⟨[], by simp [requireLoop, hg]⟩
      | some art =>
        obtain ⟨arts, h1, h2, h3⟩ := ih (files ++ [artifactRef c bp art]) (n + 1)
        refine ⟨art :: arts, ?_, ?_, ?_⟩
        · rw [requireLoop_cons_some c b bp name rest files n art hg, h1]
          simp
        · rw [requireLoop_cons_some c b bp name rest files n art hg, h2]
          simp only [List.length_cons]; omega
        · intro he
          rw [requireLoop_cons_some c b bp name rest files n art hg] at he
          exact List.Forall₂.cons ⟨b, rfl, hg⟩ (h3 he)

theorem requireLoop_complete_iff (c : GateCtx) (mb : Option Build) (bp : String) :
    ∀ (req : List String) (files : List RemoteFile) (n : Nat),
      (requireLoop c mb bp req files n).1 = false ↔
        (req = [] ∨ ∃ b, mb = some b ∧ ∀ a ∈ req, (b.GetArtifact a).isSome = true) := by
  intro req
  induction req with
  | nil => intro files n; simp [requireLoop]
  | cons name rest ih =>
    intro files n
    cases mb with
    | none => simp [requireLoop]
    | some b =>
      cases hg : b.GetArtifact name with
      | none => simp [requireLoop, hg]
      | some art =>
        rw [requireLoop_cons_some c b bp name rest files n art hg, ih]
        constructor
        · rintro (rfl | ⟨b', hb', hall⟩)
          · exact Or.inr ⟨b, rfl, by simp [hg]⟩
          · cases hb'
            refine Or.inr ⟨b, rfl, ?_⟩
            intro a ha
            rcases List.mem_cons.1 ha with rfl | ha
            · simp [hg]
            · exact hall a ha
        · rintro (h | ⟨b', hb', hall⟩)
          · exact absurd h (by simp)
          · exact Or.inr ⟨b', hb', fun a ha => hall a (List.mem_cons_of_mem _ ha)⟩

theorem requireLoop_count (c : GateCtx) (mb : Option Build) (bp : String)
    (req : List String) (files : List RemoteFile) (n : Nat)
    (h : (requireLoop c mb bp req files n).1 = false) :
    (requireLoop c mb bp req files n).2.2 = n + req.length := by
  obtain ⟨arts, _, h2, h3⟩ := requireLoop_spec c mb bp req files n
  rw [h2, (h3 h).length_eq]

theorem metaRef_object (c : GateCtx) (bp : String) (info : Option String) (r : RemoteFile)
    (h : metaRef c bp info = some r) : ∃ n, r.Object = filepath.Join [bp, n] := by
  cases info with
  | none => simp [metaRef] at h
  | some name =>
    refine ⟨filepath.Base name, ?_⟩
    by_cases hc : strings.HasPrefix (filepath.Base name) "meta" = true ∧
        strings.HasSuffix (filepath.Base name) ".json" = true
    · simp only [metaRef, hc, and_self, if_true, Option.some.injEq] at h
      rw [← h]
    · simp [metaRef, hc] at h

theorem foldl_walkFn (c : GateCtx) (bp : String) (infos : List (Option String)) :
    ∀ files : List RemoteFile,
      infos.foldl (walkFn c bp) files = files ++ infos.filterMap (metaRef c bp) := by
  induction infos with
  | nil => intro files; simp
  | cons info rest ih =>
    intro files
    rw [List.foldl_cons, ih]
    cases info with
    | none => simp [walkFn, metaRef]
    | some name =>
      by_cases h1 : strings.HasPrefix (filepath.Base name) "meta" = true <;>
      by_cases h2 : strings.HasSuffix (filepath.Base name) ".json" = true <;>
      simp [walkFn, metaRef, h1, h2]

/-- The result of `ready`, with the metadata walk and the loop over the required artifacts
spelled out. -/
theorem ready_eq (c : GateCtx) (w : World) (s : Stage) (buildID : String) (ws : workSpec) :
    ready c w s buildID ws =
      { ready := !(requireLoop c (w.ReadBuild c.cosaSrvDir buildID "")
            (filepath.Join [heldAfter (w.ReadBuild c.cosaSrvDir buildID "") buildID, c.arch])
            s.RequireArtifacts
            (ws.RemoteFiles ++ (w.Walk (filepath.Join [c.cosaSrvDir, "builds",
                filepath.Join [heldAfter (w.ReadBuild c.cosaSrvDir buildID "") buildID, c.arch]])).filterMap
              (metaRef c (filepath.Join
                [heldAfter (w.ReadBuild c.cosaSrvDir buildID "") buildID, c.arch]))) 0).1,
        ws := { ws with RemoteFiles := (requireLoop c (w.ReadBuild c.cosaSrvDir buildID "")
            (filepath.Join [heldAfter (w.ReadBuild c.cosaSrvDir buildID "") buildID, c.arch])
            s.RequireArtifacts
            (ws.RemoteFiles ++ (w.Walk (filepath.Join [c.cosaSrvDir, "builds",
                filepath.Join [heldAfter (w.ReadBuild c.cosaSrvDir buildID "") buildID, c.arch]])).filterMap
              (metaRef c (filepath.Join
                [heldAfter (w.ReadBuild c.cosaSrvDir buildID "") buildID, c.arch]))) 0).2.1 },
        buildID := heldAfter (w.ReadBuild c.cosaSrvDir buildID "") buildID,
        calls := [Call.ReadBuild c.cosaSrvDir buildID "",
          Call.Walk (filepath.Join [c.cosaSrvDir, "builds",
            filepath.Join [heldAfter (w.ReadBuild c.cosaSrvDir buildID "") buildID, c.arch]])] } := by
  have hid : (match w.ReadBuild c.cosaSrvDir buildID "" with
      | some b => if b.BuildID ≠ buildID then b.BuildID else buildID
      | none => buildID) = heldAfter (w.ReadBuild c.cosaSrvDir buildID "") buildID := by
    cases w.ReadBuild c.cosaSrvDir buildID "" with
    | none => rfl
    | some b =>
      by_cases hb : b.BuildID = buildID <;> simp [heldAfter, hb]
  unfold ready
  simp only [hid, foldl_walkFn]
  generalize hL : requireLoop c (w.ReadBuild c.cosaSrvDir buildID "")
            (filepath.Join [heldAfter (w.ReadBuild c.cosaSrvDir buildID "") buildID, c.arch])
            s.RequireArtifacts
            (ws.RemoteFiles ++ (w.Walk (filepath.Join [c.cosaSrvDir, "builds",
                filepath.Join [heldAfter (w.ReadBuild c.cosaSrvDir buildID "") buildID, c.arch]])).filterMap
              (metaRef c (filepath.Join
                [heldAfter (w.ReadBuild c.cosaSrvDir buildID "") buildID, c.arch]))) 0 = L
  obtain ⟨e, files, k⟩ := L
  cases e with
  | true => rfl
  | false =>
    have hk := requireLoop_count c _ _ _ _ 0 (by rw [hL])
    rw [hL] at hk
    simp only at hk
    simp [hk]

/-- C1: for a stage whose RequireArtifacts list is empty the gate returns true on every
poll, whatever build identifier is held and whatever the metadata read and the walk
observe (no record, or a record with any identifier). -/
theorem ready_of_no_required_artifacts (c : GateCtx) (w : World) (s : Stage) (buildID : String)
    (ws : workSpec) (h : s.RequireArtifacts = []) :
    (ready c w s buildID ws).ready = true := by
  rw [ready_eq]
  simp [h, requireLoop]

/-- C2: for a stage with a non-empty RequireArtifacts list the gate returns true exactly
when the poll read a metadata record and GetArtifact succeeds on it for every required
name; it returns false when no record was read, and false when some required name does
not resolve. -/
theorem ready_iff_all_resolve (c : GateCtx) (w : World) (s : Stage) (buildID : String)
    (ws : workSpec) (h : s.RequireArtifacts ≠ []) :
    ((ready c w s buildID ws).ready = true ↔
        ∃ b, w.ReadBuild c.cosaSrvDir buildID "" = some b ∧
          ∀ a ∈ s.RequireArtifacts, (b.GetArtifact a).isSome = true) ∧
    (w.ReadBuild c.cosaSrvDir buildID "" = none → (ready c w s buildID ws).ready = false) ∧
    (∀ b a, w.ReadBuild c.cosaSrvDir buildID "" = some b → a ∈ s.RequireArtifacts →
        b.GetArtifact a = none → (ready c w s buildID ws).ready = false) := by
  have key : (ready c w s buildID ws).ready = true ↔
      ∃ b, w.ReadBuild c.cosaSrvDir buildID "" = some b ∧
        ∀ a ∈ s.RequireArtifacts, (b.GetArtifact a).isSome = true := by
    rw [ready_eq]
    simp only [Bool.not_eq_true', requireLoop_complete_iff, h, false_or]
  refine ⟨key, ?_, ?_⟩
  · intro hn
    rw [← Bool.not_eq_true, key]
    rintro ⟨b, hb, _⟩
    rw [hn] at hb
    cases hb
  · intro b a hb ha hg
    rw [← Bool.not_eq_true, key]
    rintro ⟨b', hb', hall⟩
    rw [hb] at hb'
    cases hb'
    have := hall a ha
    rw [hg] at this
    cases this

/-- C3: on a poll on which the gate returns ready, the work specification ends with one
reference per entry of RequireArtifacts, in that order, after the references of the
metadata walk: each carries the artifact GetArtifact resolved for that name on the record
read, bucket "builds", and the key joining the build identifier held after the metadata
read, the architecture and the base name of the artifact path; for plain path elements
that key is the text buildID/arch/basename. -/
theorem ready_required_refs (c : GateCtx) (w : World) (s : Stage) (buildID : String)
    (ws : workSpec) (h : (ready c w s buildID ws).ready = true) :
    ∃ arts : List Artifact,
      List.Forall₂ (fun name a => ∃ b, w.ReadBuild c.cosaSrvDir buildID "" = some b ∧
          b.GetArtifact name = some a) s.RequireArtifacts arts ∧
      (ready c w s buildID ws).ws.RemoteFiles =
        (ws.RemoteFiles ++
          (w.Walk (filepath.Join [c.cosaSrvDir, "builds",
            filepath.Join [(ready c w s buildID ws).buildID, c.arch]])).filterMap
            (metaRef c (filepath.Join [(ready c w s buildID ws).buildID, c.arch]))) ++
        arts.map (fun a =>
          { Artifact := some a, Bucket := "builds", Minio := c.m,
            Object := filepath.Join [filepath.Join [(ready c w s buildID ws).buildID, c.arch],
              filepath.Base a.Path], Compressed := false }) ∧
      (∀ a ∈ arts, plainElem (ready c w s buildID ws).buildID → plainElem c.arch →
        plainElem (filepath.Base a.Path) →
        filepath.Join [filepath.Join [(ready c w s buildID ws).buildID, c.arch],
            filepath.Base a.Path]
          = (ready c w s buildID ws).buildID ++ "/" ++ c.arch ++ "/" ++ filepath.Base a.Path) := by
  rw [ready_eq] at h ⊢
  simp only [Bool.not_eq_true'] at h
  obtain ⟨arts, h1, _, h3⟩ := requireLoop_spec c (w.ReadBuild c.cosaSrvDir buildID "")
    (filepath.Join [heldAfter (w.ReadBuild c.cosaSrvDir buildID "") buildID, c.arch])
    s.RequireArtifacts
    (ws.RemoteFiles ++ (w.Walk (filepath.Join [c.cosaSrvDir, "builds",
        filepath.Join [heldAfter (w.ReadBuild c.cosaSrvDir buildID "") buildID, c.arch]])).filterMap
      (metaRef c (filepath.Join
        [heldAfter (w.ReadBuild c.cosaSrvDir buildID "") buildID, c.arch]))) 0
  refine ⟨arts, h3 h, ?_, ?_⟩
  · simp only [h1]
    rfl
  · intro a _ hid harch hbase
    exact filepath.Join_key_plain _ _ _ hid harch hbase

/-- C4: on every poll the work specification receives, right after the references it
started with, one reference per entry of the walk of builds/buildID/arch under the working
directory whose name has prefix "meta" and suffix ".json", in walk order, each with bucket
"builds" and the key joining the held build identifier, the architecture and the name;
entries failing either condition and callbacks without file information add nothing, and
whatever follows are references of required artifacts. For plain path elements the key is
the text buildID/arch/name. -/
theorem ready_metadata_refs (c : GateCtx) (w : World) (s : Stage) (buildID : String)
    (ws : workSpec) :
    (∃ arts : List Artifact,
      (ready c w s buildID ws).ws.RemoteFiles =
        ws.RemoteFiles ++
          (w.Walk (filepath.Join [c.cosaSrvDir, "builds",
            filepath.Join [(ready c w s buildID ws).buildID, c.arch]])).filterMap
            (fun info => info.bind (fun name =>
              if strings.HasPrefix (filepath.Base name) "meta" = true ∧
                  strings.HasSuffix (filepath.Base name) ".json" = true then
                some { Artifact := none, Bucket := "builds", Minio := c.m,
                       Object := filepath.Join
                         [filepath.Join [(ready c w s buildID ws).buildID, c.arch],
                          filepath.Base name],
                       Compressed := false }
              else none)) ++
          arts.map (artifactRef c (filepath.Join [(ready c w s buildID ws).buildID, c.arch]))) ∧
    (∀ name : String, name.data ≠ [] → '/' ∉ name.data → filepath.Base name = name) ∧
    (∀ name : String, plainElem (ready c w s buildID ws).buildID → plainElem c.arch →
      plainElem (filepath.Base name) →
      filepath.Join [filepath.Join [(ready c w s buildID ws).buildID, c.arch], filepath.Base name]
        = (ready c w s buildID ws).buildID ++ "/" ++ c.arch ++ "/" ++ filepath.Base name) := by
  refine ⟨?_, filepath.Base_eq_self, fun name hid harch hn => filepath.Join_key_plain _ _ _ hid harch hn⟩
  rw [ready_eq]
  obtain ⟨arts, h1, _, _⟩ := requireLoop_spec c (w.ReadBuild c.cosaSrvDir buildID "")
    (filepath.Join [heldAfter (w.ReadBuild c.cosaSrvDir buildID "") buildID, c.arch])
    s.RequireArtifacts
    (ws.RemoteFiles ++ (w.Walk (filepath.Join [c.cosaSrvDir, "builds",
        filepath.Join [heldAfter (w.ReadBuild c.cosaSrvDir buildID "") buildID, c.arch]])).filterMap
      (metaRef c (filepath.Join
        [heldAfter (w.ReadBuild c.cosaSrvDir buildID "") buildID, c.arch]))) 0
  refine ⟨arts, ?_⟩
  simp only [h1]
  congr 2
  apply List.filterMap_congr
  intro info _
  cases info <;> rfl

/-- C5: when the poll that follows reads the same metadata record as the poll before it,
against the same directory contents and starting from the same fresh work specification,
both polls return the same ready flag, leave the same list of remote-file references and
hold the same build identifier. -/
theorem ready_idempotent (c : GateCtx) (w : World) (s : Stage) (buildID : String)
    (ws : workSpec)
    (h : w.ReadBuild c.cosaSrvDir (ready c w s buildID ws).buildID ""
      = w.ReadBuild c.cosaSrvDir buildID "") :
    (ready c w s (ready c w s buildID ws).buildID ws).ready = (ready c w s buildID ws).ready ∧
    (ready c w s (ready c w s buildID ws).buildID ws).ws.RemoteFiles
      = (ready c w s buildID ws).ws.RemoteFiles ∧
    (ready c w s (ready c w s buildID ws).buildID ws).buildID
      = (ready c w s buildID ws).buildID := by
  have hid : (ready c w s buildID ws).buildID
      = heldAfter (w.ReadBuild c.cosaSrvDir buildID "") buildID := by rw [ready_eq]
  rw [hid] at h ⊢
  have hheld : heldAfter (w.ReadBuild c.cosaSrvDir buildID "")
        (heldAfter (w.ReadBuild c.cosaSrvDir buildID "") buildID)
      = heldAfter (w.ReadBuild c.cosaSrvDir buildID "") buildID := by
    cases w.ReadBuild c.cosaSrvDir buildID "" <;> rfl
  rw [ready_eq c w s (heldAfter (w.ReadBuild c.cosaSrvDir buildID "") buildID) ws,
    ready_eq c w s buildID ws]
  simp only [h, hheld, and_self]

/-- After a poll's metadata read the gate holds the identifier of the record read, or the
old one when no record was read; the walk of that poll is rooted at the directory of the
held identifier and every reference the poll appends is keyed under the held identifier
and the architecture. -/
theorem ready_buildID_walk_keys (c : GateCtx) (w : World) (s : Stage) (buildID : String)
    (ws : workSpec) :
    (ready c w s buildID ws).buildID
      = (match w.ReadBuild c.cosaSrvDir buildID "" with
        | some b => b.BuildID
        | none => buildID) ∧
    (ready c w s buildID ws).calls
      = [Call.ReadBuild c.cosaSrvDir buildID "",
         Call.Walk (filepath.Join [c.cosaSrvDir, "builds",
           filepath.Join [(ready c w s buildID ws).buildID, c.arch]])] ∧
    (∃ added : List RemoteFile,
      (ready c w s buildID ws).ws.RemoteFiles = ws.RemoteFiles ++ added ∧
      ∀ r ∈ added, ∃ n, r.Object
        = filepath.Join [filepath.Join [(ready c w s buildID ws).buildID, c.arch], n]) := by
  refine ⟨?_, ?_, ?_⟩
  · rw [ready_eq]; rfl
  · rw [ready_eq]
  · rw [ready_eq]
    obtain ⟨arts, h1, _, _⟩ := requireLoop_spec c (w.ReadBuild c.cosaSrvDir buildID "")
      (filepath.Join [heldAfter (w.ReadBuild c.cosaSrvDir buildID "") buildID, c.arch])
      s.RequireArtifacts
      (ws.RemoteFiles ++ (w.Walk (filepath.Join [c.cosaSrvDir, "builds",
          filepath.Join [heldAfter (w.ReadBuild c.cosaSrvDir buildID "") buildID, c.arch]])).filterMap
        (metaRef c (filepath.Join
          [heldAfter (w.ReadBuild c.cosaSrvDir buildID "") buildID, c.arch]))) 0
    refine ⟨(w.Walk (filepath.Join [c.cosaSrvDir, "builds",
          filepath.Join [heldAfter (w.ReadBuild c.cosaSrvDir buildID "") buildID, c.arch]])).filterMap
        (metaRef c (filepath.Join
          [heldAfter (w.ReadBuild c.cosaSrvDir buildID "") buildID, c.arch])) ++
        arts.map (artifactRef c (filepath.Join
          [heldAfter (w.ReadBuild c.cosaSrvDir buildID "") buildID, c.arch])), ?_, ?_⟩
    · simp only [h1, List.append_assoc]
    · intro r hr
      rcases List.mem_append.1 hr with hr | hr
      · obtain ⟨info, _, hinfo⟩ := List.mem_filterMap.1 hr
        exact metaRef_object c _ info r hinfo
      · obtain ⟨a, _, rfl⟩ := List.mem_map.1 hr
        exact ⟨filepath.Base a.Path, rfl⟩

/-! ### Grouping -/

theorem mapIndex_mapAssign (wf : WorkerFuncs) (k k' : Int) (g : List Task) :
    mapIndex (mapAssign wf k g) k' = if k = k' then g else mapIndex wf k' := by
  induction wf with
  | nil => simp [mapAssign, mapIndex]
  | cons p rest ih =>
    obtain ⟨k0, g0⟩ := p
    by_cases h0 : k0 = k
    · subst h0
      by_cases h1 : k0 = k' <;> simp [mapAssign, mapIndex, h1]
    · by_cases h1 : k0 = k'
      · subst h1
        have : ¬ k = k0 := fun h => h0 h.symm
        simp [mapAssign, mapIndex, h0, this]
      · simp [mapAssign, mapIndex, h0, h1, ih]

theorem keys_mapAssign (wf : WorkerFuncs) (k : Int) (g : List Task) :
    (mapAssign wf k g).map Prod.fst
      = if k ∈ wf.map Prod.fst then wf.map Prod.fst else wf.map Prod.fst ++ [k] := by
  induction wf with
  | nil => simp [mapAssign]
  | cons p rest ih =>
    obtain ⟨k0, g0⟩ := p
    by_cases h0 : k0 = k
    · subst h0
      simp [mapAssign]
    · have h0' : ¬ k = k0 := fun h => h0 h.symm
      simp only [mapAssign, h0, if_false, List.map_cons, ih, List.mem_cons, h0', false_or]
      split_ifs <;> simp

theorem nodup_keys_mapAssign (wf : WorkerFuncs) (k : Int) (g : List Task)
    (h : (wf.map Prod.fst).Nodup) : ((mapAssign wf k g).map Prod.fst).Nodup := by
  rw [keys_mapAssign]
  split_ifs with hk
  · exact h
  · exact List.Nodup.append h (List.nodup_singleton k) (by simpa using hk)

theorem mem_mapAssign (wf : WorkerFuncs) (k : Int) (g : List Task) (p : Int × List Task)
    (hp : p ∈ mapAssign wf k g) : p ∈ wf ∨ p = (k, g) := by
  induction wf with
  | nil => simpa [mapAssign] using hp
  | cons q rest ih =>
    obtain ⟨k0, g0⟩ := q
    by_cases h0 : k0 = k
    · simp only [mapAssign, h0, if_true, List.mem_cons] at hp
      rcases hp with hp | hp
      · exact Or.inr hp
      · exact Or.inl (List.mem_cons_of_mem _ hp)
    · simp only [mapAssign, h0, if_false, List.mem_cons] at hp
      rcases hp with hp | hp
      · exact Or.inl (by simp [hp])
      · rcases ih hp with h | h
        · exact Or.inl (List.mem_cons_of_mem _ h)
        · exact Or.inr h

theorem sizes_mapAssign (wf : WorkerFuncs) (k : Int) (t : Task) :
    ((mapAssign wf k (mapIndex wf k ++ [t])).map (fun p => p.2.length)).sum
      = (wf.map (fun p => p.2.length)).sum + 1 := by
  induction wf with
  | nil => simp [mapAssign, mapIndex]
  | cons q rest ih =>
    obtain ⟨k0, g0⟩ := q
    by_cases h0 : k0 = k
    · simp [mapAssign, mapIndex, h0]; omega
    · simp only [mapAssign, mapIndex, h0, if_false, List.map_cons, List.sum_cons, ih]
      omega

theorem mapIndex_of_mem (wf : WorkerFuncs) (h : (wf.map Prod.fst).Nodup)
    (p : Int × List Task) (hp : p ∈ wf) : mapIndex wf p.1 = p.2 := by
  induction wf with
  | nil => cases hp
  | cons q rest ih =>
    obtain ⟨k0, g0⟩ := q
    rw [List.map_cons, List.nodup_cons] at h
    rcases List.mem_cons.1 hp with rfl | hp
    · simp [mapIndex]
    · have hne : k0 ≠ p.1 := by
        intro he
        apply h.1
        rw [he]
        exact List.mem_map.2 ⟨p, hp, rfl⟩
      simp only [mapIndex, hne, if_false]
      exact ih h.2 hp

/-- The grouping loop started at index `idx` on a map `wf0`: it returns, and extends each
group of `wf0` by the tasks of the stages of its ordinal, in stage order. -/
theorem groupStages_from (DeepCopy : Stage → Except String Stage) :
    ∀ (stages : List Stage) (idx : Nat) (wf0 : WorkerFuncs),
      (∀ ss ∈ stages, DeepCopy ss = .ok ss) →
      (wf0.map Prod.fst).Nodup → (∀ p ∈ wf0, p.2 ≠ []) →
      ∃ wf, groupStages DeepCopy idx stages wf0 = .ok wf ∧
        (∀ k, mapIndex wf k = mapIndex wf0 k ++
          ((List.enumFrom idx stages).filter (fun p => p.2.ExecutionOrder = k)).map
            (fun p => { idx := p.1, s := p.2 })) ∧
        (wf.map Prod.fst).Nodup ∧ (∀ p ∈ wf, p.2 ≠ []) ∧
        (wf.map (fun p => p.2.length)).sum
          = (wf0.map (fun p => p.2.length)).sum + stages.length := by
  intro stages
  induction stages with
  | nil =>
    intro idx wf0 _ hn he
    exact ⟨wf0, rfl, by simp, hn, he, by simp⟩
  | cons ss rest ih =>
    intro idx wf0 hcopy hn he
    have hss := hcopy ss (List.mem_cons_self _ _)
    obtain ⟨wf, h1, h2, h3, h4, h5⟩ := ih (idx + 1)
      (mapAssign wf0 ss.ExecutionOrder (mapIndex wf0 ss.ExecutionOrder ++ [{ idx := idx, s := ss }]))
      (fun x hx => hcopy x (List.mem_cons_of_mem _ hx))
      (nodup_keys_mapAssign _ _ _ hn)
      (by
        intro p hp
        rcases mem_mapAssign _ _ _ _ hp with hp | hp
        · exact he p hp
        · rw [hp]; simp)
    refine ⟨wf, ?_, ?_, h3, h4, ?_⟩
    · simp only [groupStages, hss]
      exact h1
    · intro k
      rw [h2 k, mapIndex_mapAssign]
      by_cases hk : ss.ExecutionOrder = k
      · simp [List.enumFrom, List.filter, hk]
      · simp [List.enumFrom, List.filter, hk]
    · rw [h5, sizes_mapAssign]
      simp only [List.length_cons]
      omega

/-- C8: when every stage copies without error, the grouping loop of Exec returns a map in
which, for every ordinal k, the group under k holds one task per stage of ExecutionOrder
k, in stage-list order, each with the stage's index; a stage's task lies in the group of an
ordinal exactly when that is the stage's ordinal, the keys are distinct, every group present
in the map is non-empty and is what indexing its key gives, and the group sizes sum to the
number of stages. -/
theorem groupStages_partition (DeepCopy : Stage → Except String Stage) (stages : List Stage)
    (hcopy : ∀ ss ∈ stages, DeepCopy ss = .ok ss) :
    ∃ wf, groupStages DeepCopy 0 stages [] = .ok wf ∧
      (∀ k, mapIndex wf k =
        ((List.enumFrom 0 stages).filter (fun p => p.2.ExecutionOrder = k)).map
          (fun p => { idx := p.1, s := p.2 })) ∧
      (∀ (i : Nat) (h : i < stages.length) (k : Int),
        ({ idx := i, s := stages.get ⟨i, h⟩ } : Task) ∈ mapIndex wf k ↔
          (stages.get ⟨i, h⟩).ExecutionOrder = k) ∧
      (wf.map Prod.fst).Nodup ∧
      (∀ p ∈ wf, p.2 ≠ [] ∧ mapIndex wf p.1 = p.2) ∧
      (wf.map (fun p => p.2.length)).sum = stages.length := by
  obtain ⟨wf, h1, h2, h3, h4, h5⟩ := groupStages_from DeepCopy stages 0 [] hcopy (by simp) (by simp)
  refine ⟨wf, h1, ?_, ?_, h3, fun p hp => ⟨h4 p hp, mapIndex_of_mem wf h3 p hp⟩, by simpa using h5⟩
  · intro k
    rw [h2 k]
    simp [mapIndex]
  · intro i h k
    rw [h2 k]
    simp only [mapIndex, List.nil_append, List.mem_map, List.mem_filter, decide_eq_true_eq]
    constructor
    · rintro ⟨⟨j, s⟩, ⟨hmem, hord⟩, heq⟩
      simp only [Task.mk.injEq] at heq
      obtain ⟨rfl, rfl⟩ := heq
      exact hord
    · intro hord
      refine ⟨(i, stages.get ⟨i, h⟩), ⟨?_, hord⟩, rfl⟩
      rw [List.mem_iff_get]
      refine ⟨⟨i, by simpa using h⟩, ?_⟩
      simp

/-! ### Sample runs of the gate -/

/-- The stage without required artifacts, polled first against a tree without any build. -/
theorem ready_of_no_required_artifacts_witness :
    stageFree.RequireArtifacts = [] ∧
    (ready demoCtx emptyWorld stageFree "" (freshWs demoCtx [] stageFree)).ready = true :=
  ⟨rfl, ready_of_no_required_artifacts demoCtx emptyWorld stageFree ""
    (freshWs demoCtx [] stageFree) rfl⟩

/-- The stage requiring `ostree`, polled against the tree holding build `35.1`. -/
theorem ready_iff_all_resolve_witness :
    stageOstree.RequireArtifacts ≠ [] ∧
    ((ready demoCtx demoWorld stageOstree "" (freshWs demoCtx [] stageOstree)).ready = true ↔
      ∃ b, demoWorld.ReadBuild demoCtx.cosaSrvDir "" "" = some b ∧
        ∀ a ∈ stageOstree.RequireArtifacts, (b.GetArtifact a).isSome = true) :=
  ⟨by decide, (ready_iff_all_resolve demoCtx demoWorld stageOstree ""
    (freshWs demoCtx [] stageOstree) (by decide)).1⟩

/-- The ready poll of the stage requiring `ostree`: two metadata references, then one per
required artifact. -/
theorem ready_required_refs_witness :
    (ready demoCtx demoWorld stageOstree "" (freshWs demoCtx [] stageOstree)).ready = true ∧
    ∃ arts : List Artifact,
      List.Forall₂ (fun name a => ∃ b, demoWorld.ReadBuild demoCtx.cosaSrvDir "" "" = some b ∧
          b.GetArtifact name = some a) stageOstree.RequireArtifacts arts ∧
      (ready demoCtx demoWorld stageOstree "" (freshWs demoCtx [] stageOstree)).ws.RemoteFiles.length
        = 2 + arts.length := by
  refine ⟨by decide, ?_⟩
  obtain ⟨arts, h1, h2, _⟩ := ready_required_refs demoCtx demoWorld stageOstree ""
    (freshWs demoCtx [] stageOstree) (by decide)
  refine ⟨arts, h1, ?_⟩
  rw [h2, List.length_append, List.length_map]
  congr 1

/-- The first poll adopts `35.1`; the second reads the same record and agrees with it. -/
theorem ready_idempotent_witness :
    demoWorld.ReadBuild demoCtx.cosaSrvDir
        (ready demoCtx demoWorld stageOstree "" (freshWs demoCtx [] stageOstree)).buildID ""
      = demoWorld.ReadBuild demoCtx.cosaSrvDir "" "" ∧
    (ready demoCtx demoWorld stageOstree
        (ready demoCtx demoWorld stageOstree "" (freshWs demoCtx [] stageOstree)).buildID
        (freshWs demoCtx [] stageOstree)).ready
      = (ready demoCtx demoWorld stageOstree "" (freshWs demoCtx [] stageOstree)).ready :=
  ⟨rfl, (ready_idempotent demoCtx demoWorld stageOstree "" (freshWs demoCtx [] stageOstree) rfl).1⟩

/-- The grouping of three stages of ordinals 1, 2 and 3. -/
theorem groupStages_partition_witness :
    (∀ ss ∈ threeGroupStages, (fun s => Except.ok s : Stage → Except String Stage) ss = .ok ss) ∧
    ∃ wf, groupStages (fun s => Except.ok s) 0 threeGroupStages [] = .ok wf ∧
      (wf.map (fun p => p.2.length)).sum = threeGroupStages.length := by
  refine ⟨fun _ _ => rfl, ?_⟩
  obtain ⟨wf, h1, _, _, _, _, h6⟩ :=
    groupStages_partition (fun s => Except.ok s) threeGroupStages (fun _ _ => rfl)
  exact ⟨wf, h1, h6⟩

/-! ### Runs of the goroutines -/

/-- C7: with stage a of ordinal 1 and stage b of ordinal 2, a range over the map that visits
key 2 first starts and dispatches b while a, of the lower ordinal, has not run and its
group is still to be visited. -/
theorem higher_ordinal_started_first :
    groupStages (fun s => Except.ok s) 0 twoGroupStages [] = Except.ok twoGroupCfg.workerFuncs ∧
    twoGroupCfg.order.Perm (twoGroupCfg.workerFuncs.map Prod.fst) ∧
    (run twoGroupCfg (initExec twoGroupCfg)
        [Action.loop, Action.poll 1 emptyWorld Launch.runs]).map
        (fun st => (st.trace, st.phases, st.pending))
      = some ([Event.started 1, Event.dispatched 1],
              [TaskPhase.notStarted, TaskPhase.dispatched], [1]) :=
  ⟨rfl, by decide, by decide⟩

/-- C9: in one group, a fails in its worker while b and c wait for an artifact; the error is
sent on the error channel, the single value the coordinator then sends on terminate is
received by b, and c, polling afterwards with its artifact resolved, calls the worker. -/
theorem dispatched_after_worker_error :
    groupStages (fun s => Except.ok s) 0 oneGroupStages [] = Except.ok oneGroupCfg.workerFuncs ∧
    (run oneGroupCfg (initExec oneGroupCfg)
        [Action.loop, Action.poll 1 emptyWorld Launch.runs, Action.poll 2 emptyWorld Launch.runs,
         Action.poll 0 emptyWorld Launch.runs, Action.workerReturns 0 true,
         Action.coordRecvErr 0, Action.poll 1 demoWorld Launch.runs,
         Action.poll 2 demoWorld Launch.runs]).map (fun st => (st.trace, st.phases))
      = some ([Event.started 0, Event.started 1, Event.started 2, Event.dispatched 0,
               Event.workerError 0, Event.returned 0, Event.terminateSent,
               Event.terminateReceived (some 1), Event.returned 1, Event.dispatched 2],
              [TaskPhase.returned, TaskPhase.returned, TaskPhase.dispatched]) :=
  ⟨rfl, by decide⟩

/-- C10: with groups 1, 2, 3 visited in that order, the worker of group 1 fails; the loop,
about to start group 2 with the coordinator sending on terminate, receives the value and
skips group 2, then starts the task of group 3, which calls its worker. -/
theorem later_group_started_after_skip :
    groupStages (fun s => Except.ok s) 0 threeGroupStages []
      = Except.ok threeGroupCfg.workerFuncs ∧
    (run threeGroupCfg (initExec threeGroupCfg)
        [Action.loop, Action.poll 0 emptyWorld Launch.runs, Action.workerReturns 0 true,
         Action.coordRecvErr 0, Action.loop]).map
        (fun st => (st.coord, st.barrier, st.pending))
      = some (CoordPhase.sendingTerminate, none, [2, 3]) ∧
    (run threeGroupCfg (initExec threeGroupCfg)
        [Action.loop, Action.poll 0 emptyWorld Launch.runs, Action.workerReturns 0 true,
         Action.coordRecvErr 0, Action.loop, Action.loop, Action.loop,
         Action.poll 2 emptyWorld Launch.runs]).map (fun st => (st.trace, st.phases))
      = some ([Event.started 0, Event.dispatched 0, Event.workerError 0, Event.returned 0,
               Event.terminateSent, Event.terminateReceived none, Event.groupSkipped 2,
               Event.started 2, Event.dispatched 2],
              [TaskPhase.returned, TaskPhase.notStarted, TaskPhase.dispatched]) :=
  ⟨rfl, by decide, by decide⟩

/-! ### Stage tasks that never return -/

theorem phaseOf_mem (st : ExecState) (idx : Nat) :
    phaseOf st idx ∈ st.phases ∨ phaseOf st idx = TaskPhase.notStarted := by
  unfold phaseOf
  by_cases h : idx < st.phases.length
  · left
    rw [List.getD_eq_getElem _ _ h]
    exact List.getElem_mem h
  · right
    rw [List.getD_eq_default _ _ (by omega)]

theorem phaseOf_ne_returned (st : ExecState) (h : calm st) (idx : Nat) :
    phaseOf st idx ≠ TaskPhase.returned := by
  rcases phaseOf_mem st idx with hm | hm
  · exact (h.2 _ hm).1
  · rw [hm]; decide

theorem mem_set_phases (l : List TaskPhase) (idx : Nat) (p q : TaskPhase)
    (h : q ∈ l.set idx p) : q ∈ l ∨ q = p := by
  rcases List.mem_or_eq_of_mem_set h with h | h
  · exact Or.inl h
  · exact Or.inr h

theorem startGroup_fields (g : List Task) :
    ∀ st : ExecState,
      (startGroup st g).coord = st.coord ∧ (startGroup st g).loopDone = st.loopDone ∧
      (startGroup st g).pending = st.pending ∧ (startGroup st g).barrier = st.barrier ∧
      ∀ q ∈ (startGroup st g).phases, q ∈ st.phases ∨ q = TaskPhase.waiting := by
  induction g with
  | nil => intro st; exact ⟨rfl, rfl, rfl, rfl, fun q hq => Or.inl hq⟩
  | cons t rest ih =>
    intro st
    have h := ih { setPhase st t.idx TaskPhase.waiting with
      trace := st.trace ++ [Event.started t.idx] }
    have e : startGroup st (t :: rest) = startGroup { setPhase st t.idx TaskPhase.waiting with
        trace := st.trace ++ [Event.started t.idx] } rest := by
      simp [startGroup]
    rw [e]
    refine ⟨h.1, h.2.1, h.2.2.1, h.2.2.2.1, ?_⟩
    intro q hq
    rcases h.2.2.2.2 q hq with hq | hq
    · exact mem_set_phases _ _ _ _ hq
    · exact Or.inr hq

/-- A quiet step keeps the system calm and the group loop held. -/
theorem quiet_step_keeps (cfg : ExecCfg) (st st' : ExecState) (a : Action)
    (hq : a.quiet = true) (hc : calm st) (hl : loopHeld cfg st)
    (hs : step cfg st a = some st') : calm st' ∧ loopHeld cfg st' := by
  have hsel : ¬ st.coord = CoordPhase.sendingTerminate := by rw [hc.1]; decide
  cases a with
  | loop =>
    simp only [step, stepLoop] at hs
    cases hb : st.barrier with
    | some k =>
      rw [hb] at hs
      simp only at hs
      exfalso
      obtain ⟨t, rest, hg⟩ := List.exists_cons_of_ne_nil (hl.2.2.1 k hb)
      rw [hg] at hs
      have hne := phaseOf_ne_returned st hc t.idx
      simp [hne] at hs
    | none =>
      rw [hb] at hs
      simp only at hs
      obtain ⟨k, rest, hp⟩ := List.exists_cons_of_ne_nil (hl.2.1 hb)
      rw [hp] at hs
      simp only [hsel, if_false, Option.some.injEq] at hs
      have hf := startGroup_fields (mapIndex cfg.workerFuncs k) st
      subst hs
      refine ⟨⟨hf.1.trans hc.1, ?_⟩, hf.2.1.trans hl.1, ?_, ?_, ?_⟩
      · intro q hq'
        rcases hf.2.2.2.2 q hq' with h | h
        · exact hc.2 q h
        · rw [h]; exact ⟨by decide, by decide⟩
      · intro h; cases h
      · intro k' hk'
        simp only [Option.some.injEq] at hk'
        subst hk'
        exact hl.2.2.2 k (by rw [hp]; exact List.mem_cons_self _ _)
      · intro k' hk'
        exact hl.2.2.2 k' (by rw [hp]; exact List.mem_cons_of_mem _ hk')
  | poll idx w o =>
    cases o with
    | runs =>
      simp only [step, stepPoll] at hs
      cases ht : taskAt cfg idx with
      | none => rw [ht] at hs; cases hs
      | some t =>
        rw [ht] at hs
        simp only [hsel, if_false] at hs
        split_ifs at hs with h1 h2
        · simp only [Option.some.injEq] at hs
          subst hs
          exact ⟨hc, hl⟩
        · simp only [Option.some.injEq] at hs
          subst hs
          refine ⟨⟨hc.1, ?_⟩, hl⟩
          intro q hq'
          rcases mem_set_phases _ _ _ _ hq' with h | h
          · exact hc.2 q h
          · rw [h]; exact ⟨by decide, by decide⟩
    | getEnvVarsFails => cases hq
    | newCosaPodderFails => cases hq
  | workerReturns idx failed =>
    cases failed with
    | true => cases hq
    | false =>
      simp only [step, stepWorkerReturns, Bool.false_eq_true, if_false] at hs
      by_cases h1 : phaseOf st idx ≠ TaskPhase.dispatched
      · rw [if_pos h1] at hs; cases hs
      rw [if_neg h1] at hs
      simp only [Option.some.injEq] at hs
      subst hs
      refine ⟨⟨hc.1, ?_⟩, hl⟩
      intro q hq'
      rcases mem_set_phases _ _ _ _ hq' with h | h
      · exact hc.2 q h
      · rw [h]; exact ⟨by decide, by decide⟩
  | coordRecvErr idx => cases hq
  | coordRecvSig => cases hq
  | coordRecvCtx => cases hq
  | osSignal => cases hq
  | cancel => cases hq

/-- Quiet steps from a calm state with the loop held lead to such states only. -/
theorem quiet_run_keeps (cfg : ExecCfg) (as : List Action) :
    ∀ st st' : ExecState, (∀ a ∈ as, a.quiet = true) → calm st → loopHeld cfg st →
      run cfg st as = some st' → calm st' ∧ loopHeld cfg st' := by
  induction as with
  | nil =>
    intro st st' _ hc hl hr
    simp only [run, Option.some.injEq] at hr
    subst hr
    exact ⟨hc, hl⟩
  | cons a rest ih =>
    intro st st' hq hc hl hr
    simp only [run] at hr
    cases hs : step cfg st a with
    | none => rw [hs] at hr; cases hr
    | some st1 =>
      rw [hs] at hr
      obtain ⟨hc1, hl1⟩ := quiet_step_keeps cfg st st1 a (hq a (List.mem_cons_self _ _)) hc hl hs
      exact ih st1 st' (fun b hb => hq b (List.mem_cons_of_mem _ hb)) hc1 hl1 hr

/-- While no worker fails, no launch fails, no signal arrives and the context is not
cancelled, no stage task returns and the group loop does not finish, for every job whose
range visits at least one key and only keys of non-empty groups. -/
theorem no_return_without_termination (cfg : ExecCfg) (hne : cfg.order ≠ [])
    (hgroups : ∀ k ∈ cfg.order, mapIndex cfg.workerFuncs k ≠ [])
    (as : List Action) (hq : ∀ a ∈ as, a.quiet = true) (st : ExecState)
    (hr : run cfg (initExec cfg) as = some st) :
    st.loopDone = false ∧ ∀ p ∈ st.phases, p ≠ TaskPhase.returned := by
  have hc : calm (initExec cfg) := by
    refine ⟨rfl, ?_⟩
    intro p hp
    simp only [initExec] at hp
    rw [List.eq_of_mem_replicate hp]
    exact ⟨by decide, by decide⟩
  have hl : loopHeld cfg (initExec cfg) := by
    refine ⟨rfl, fun _ => hne, ?_, hgroups⟩
    intro k hk
    simp [initExec] at hk
  obtain ⟨h1, h2⟩ := quiet_run_keeps cfg as (initExec cfg) st hq hc hl hr
  exact ⟨h2.1, fun p hp => (h1.2 p hp).1⟩

/-- C11: with two stages of ordinal 1, no required artifacts and workers that succeed, both
tasks are back at the head of their loops once both dispatches have finished, the group loop
cannot leave its wait, and the next passes dispatch both stages a second time; as long as
nothing fails and nothing asks for termination, no task returns and the loop does not
finish. -/
theorem successful_task_dispatches_again :
    groupStages (fun s => Except.ok s) 0 sameOrdinalStages []
      = Except.ok sameOrdinalCfg.workerFuncs ∧
    (run sameOrdinalCfg (initExec sameOrdinalCfg)
        [Action.loop, Action.poll 0 emptyWorld Launch.runs, Action.poll 1 emptyWorld Launch.runs,
         Action.workerReturns 0 false, Action.workerReturns 1 false]).map
        (fun st => (st.trace, st.phases, st.barrier, (step sameOrdinalCfg st Action.loop).isSome))
      = some ([Event.started 0, Event.started 1, Event.dispatched 0, Event.dispatched 1],
              [TaskPhase.waiting, TaskPhase.waiting], some 1, false) ∧
    (run sameOrdinalCfg (initExec sameOrdinalCfg)
        [Action.loop, Action.poll 0 emptyWorld Launch.runs, Action.poll 1 emptyWorld Launch.runs,
         Action.workerReturns 0 false, Action.workerReturns 1 false,
         Action.poll 0 emptyWorld Launch.runs, Action.poll 1 emptyWorld Launch.runs]).map
        (fun st => (st.trace, st.phases))
      = some ([Event.started 0, Event.started 1, Event.dispatched 0, Event.dispatched 1,
               Event.dispatched 0, Event.dispatched 1],
              [TaskPhase.dispatched, TaskPhase.dispatched]) ∧
    (∀ (as : List Action) (st : ExecState), (∀ a ∈ as, a.quiet = true) →
      run sameOrdinalCfg (initExec sameOrdinalCfg) as = some st →
      st.loopDone = false ∧ ∀ p ∈ st.phases, p ≠ TaskPhase.returned) := by
  refine ⟨rfl, by decide, by decide, ?_⟩
  intro as st hq hr
  exact no_return_without_termination sameOrdinalCfg (by decide) (by decide) as hq st hr

/-! ### The coordinator -/

theorem startGroup_coord (g : List Task) (st : ExecState) :
    (startGroup st g).coord = st.coord := (startGroup_fields g st).1

/-- No step takes the coordinator out of its loop. -/
theorem step_coord_not_returned (cfg : ExecCfg) (st st' : ExecState) (a : Action)
    (h : st.coord ≠ CoordPhase.returned) (hs : step cfg st a = some st') :
    st'.coord ≠ CoordPhase.returned := by
  cases a with
  | loop =>
    simp only [step, stepLoop] at hs
    split at hs
    · split_ifs at hs
      simp only [Option.some.injEq] at hs
      subst hs; exact h
    · split at hs
      · split_ifs at hs
        simp only [Option.some.injEq] at hs
        subst hs; exact h
      · split_ifs at hs
        · simp only [Option.some.injEq] at hs
          subst hs; simp
        · simp only [Option.some.injEq] at hs
          subst hs
          simpa [startGroup_coord] using h
  | poll idx w o =>
    simp only [step, stepPoll] at hs
    split at hs
    · cases hs
    · split_ifs at hs
      · simp only [Option.some.injEq] at hs
        subst hs; simp [setPhase]
      · simp only [Option.some.injEq] at hs
        subst hs; exact h
      · cases o <;>
        · simp only [Option.some.injEq] at hs
          subst hs; simpa [setPhase] using h
  | workerReturns idx failed =>
    simp only [step, stepWorkerReturns] at hs
    split_ifs at hs <;>
    · simp only [Option.some.injEq] at hs
      subst hs; simpa [setPhase] using h
  | coordRecvErr idx =>
    simp only [step, stepCoordRecvErr] at hs
    split_ifs at hs
    simp only [Option.some.injEq] at hs
    subst hs; simp [setPhase]
  | coordRecvSig =>
    simp only [step, stepCoordRecvSig] at hs
    split_ifs at hs
    simp only [Option.some.injEq] at hs
    subst hs; simp
  | coordRecvCtx =>
    simp only [step, stepCoordRecvCtx] at hs
    split_ifs at hs
    simp only [Option.some.injEq] at hs
    subst hs; simp
  | osSignal =>
    simp only [step, Option.some.injEq] at hs
    subst hs; exact h
  | cancel =>
    simp only [step, Option.some.injEq] at hs
    subst hs; exact h

theorem run_coord_not_returned (cfg : ExecCfg) (as : List Action) :
    ∀ st st' : ExecState, st.coord ≠ CoordPhase.returned → run cfg st as = some st' →
      st'.coord ≠ CoordPhase.returned := by
  induction as with
  | nil =>
    intro st st' h hr
    simp only [run, Option.some.injEq] at hr
    subst hr; exact h
  | cons a rest ih =>
    intro st st' h hr
    simp only [run] at hr
    cases hs : step cfg st a with
    | none => rw [hs] at hr; cases hr
    | some st1 =>
      rw [hs] at hr
      exact ih st1 st' (step_coord_not_returned cfg st st1 a h hs) hr

/-- C13: after one cancellation of the context the coordinator sends on terminate, goes
back to its select once a task has received the value, takes the closed context channel
again and sends a second time; and in no run does the coordinator ever leave its loop. -/
theorem coordinator_sends_again :
    (run oneGroupCfg (initExec oneGroupCfg)
        [Action.loop, Action.cancel, Action.coordRecvCtx, Action.poll 1 emptyWorld Launch.runs,
         Action.coordRecvCtx, Action.poll 2 emptyWorld Launch.runs]).map
        (fun st => (st.trace, st.coord))
      = some ([Event.started 0, Event.started 1, Event.started 2, Event.ctxCancelled,
               Event.terminateSent, Event.terminateReceived (some 1), Event.returned 1,
               Event.terminateSent, Event.terminateReceived (some 2), Event.returned 2],
              CoordPhase.selecting) ∧
    (∀ (cfg : ExecCfg) (as : List Action) (st : ExecState),
      run cfg (initExec cfg) as = some st → st.coord ≠ CoordPhase.returned) := by
  refine ⟨by decide, ?_⟩
  intro cfg as st hr
  exact run_coord_not_returned cfg as (initExec cfg) st (by simp [initExec]) hr

/-! ### A stage task that fails -/

theorem phaseOf_setPhase (st : ExecState) (idx : Nat) (p : TaskPhase)
    (h : idx < st.phases.length) : phaseOf (setPhase st idx p) idx = p := by
  unfold phaseOf setPhase
  simp only
  rw [List.getD_eq_getElem _ _ (by simpa using h)]
  simp

/-- The steps of a failing stage task: a failure of getEnvVars or NewCosaPodder after a
ready gate, and a failure of the
worker, each take the stage task to its send on the error channel, without a dispatch. A
task in that send takes no pass through its loop and has no worker to return; its only step
is the completion of the send, when the coordinator receives the error: it records the error
once and the task has returned. A task that has returned takes no pass, has no worker to
return and sends no error. -/
theorem failed_task_sends_once (cfg : ExecCfg) (st : ExecState) (idx : Nat)
    (hidx : idx < st.phases.length) :
    (∀ (w : World) (o : Launch) (t : Task), taskAt cfg idx = some t →
        phaseOf st idx = TaskPhase.waiting → st.coord ≠ CoordPhase.sendingTerminate →
        (ready cfg.gate w t.s st.buildID (freshWs cfg.gate cfg.remoteFiles t.s)).ready = true →
        o ≠ Launch.runs →
        ∃ st', stepPoll cfg st idx w o = some st' ∧ phaseOf st' idx = TaskPhase.sendingErr ∧
          st'.trace = st.trace) ∧
    (phaseOf st idx = TaskPhase.dispatched →
        ∃ st', stepWorkerReturns st idx true = some st' ∧
          phaseOf st' idx = TaskPhase.sendingErr ∧ st'.trace = st.trace) ∧
    (phaseOf st idx = TaskPhase.sendingErr →
        (∀ w o, stepPoll cfg st idx w o = none) ∧ (∀ f, stepWorkerReturns st idx f = none) ∧
        (st.coord = CoordPhase.selecting →
          ∃ st', stepCoordRecvErr st idx = some st' ∧ phaseOf st' idx = TaskPhase.returned ∧
            st'.trace = st.trace ++
              [Event.workerError idx, Event.returned idx, Event.terminateSent]) ∧
        (st.coord ≠ CoordPhase.selecting → stepCoordRecvErr st idx = none)) ∧
    (phaseOf st idx = TaskPhase.returned →
        (∀ w o, stepPoll cfg st idx w o = none) ∧ (∀ f, stepWorkerReturns st idx f = none) ∧
        stepCoordRecvErr st idx = none) := by
  refine ⟨?_, ?_, ?_, ?_⟩
  · intro w o t ht hp hco hr ho
    cases o with
    | runs => exact absurd rfl ho
    | getEnvVarsFails =>
      refine ⟨{ setPhase st idx TaskPhase.sendingErr with
          buildID := (ready cfg.gate w t.s st.buildID
            (freshWs cfg.gate cfg.remoteFiles t.s)).buildID }, ?_, ?_, rfl⟩
      · simp [stepPoll, ht, hp, hco, hr]
      · exact phaseOf_setPhase st idx _ hidx
    | newCosaPodderFails =>
      refine ⟨{ setPhase st idx TaskPhase.sendingErr with
          buildID := (ready cfg.gate w t.s st.buildID
            (freshWs cfg.gate cfg.remoteFiles t.s)).buildID }, ?_, ?_, rfl⟩
      · simp [stepPoll, ht, hp, hco, hr]
      · exact phaseOf_setPhase st idx _ hidx
  · intro hp
    refine ⟨setPhase st idx TaskPhase.sendingErr, ?_, ?_, rfl⟩
    · simp [stepWorkerReturns, hp]
    · exact phaseOf_setPhase st idx _ hidx
  · intro hp
    refine ⟨?_, ?_, ?_, ?_⟩
    · intro w o
      unfold stepPoll
      cases taskAt cfg idx with
      | none => rfl
      | some t => simp [hp]
    · intro f
      simp [stepWorkerReturns, hp]
    · intro hco
      refine ⟨{ setPhase st idx TaskPhase.returned with
          coord := CoordPhase.sendingTerminate,
          trace := st.trace ++
            [Event.workerError idx, Event.returned idx, Event.terminateSent] }, ?_, ?_, rfl⟩
      · simp [stepCoordRecvErr, hco, hp]
      · exact phaseOf_setPhase st idx _ hidx
    · intro hco
      simp [stepCoordRecvErr, hco]
  · intro hp
    refine ⟨?_, ?_, ?_⟩
    · intro w o
      unfold stepPoll
      cases taskAt cfg idx with
      | none => rfl
      | some t => simp [hp]
    · intro f
      simp [stepWorkerReturns, hp]
    · simp [stepCoordRecvErr, hp]

/-! ### Paths under a rooted directory -/

theorem intercalate_cons_cons (a b : List Char) (rest : List (List Char)) :
    ['/'].intercalate (a :: b :: rest) = a ++ '/' :: ['/'].intercalate (b :: rest) := by
  simp [List.intercalate, List.intersperse]

theorem intercalate_append (xs ys : List (List Char)) (hx : xs ≠ []) (hy : ys ≠ []) :
    ['/'].intercalate (xs ++ ys) = ['/'].intercalate xs ++ '/' :: ['/'].intercalate ys := by
  induction xs with
  | nil => exact absurd rfl hx
  | cons a rest ih =>
    cases rest with
    | nil =>
      obtain ⟨y, ys', rfl⟩ := List.exists_cons_of_ne_nil hy
      rw [List.singleton_append, intercalate_cons_cons]
      simp [List.intercalate, List.intersperse]
    | cons b rest' =>
      rw [List.cons_append, List.cons_append, intercalate_cons_cons, ← List.cons_append,
        ih (by simp), intercalate_cons_cons]
      simp

theorem filepath.cleanChars_rooted (segs : List (List Char)) (hne : segs ≠ [])
    (h : ∀ seg ∈ segs, seg ≠ [] ∧ '/' ∉ seg ∧ seg ≠ ['.'] ∧ seg ≠ ['.', '.']) :
    filepath.cleanChars ('/' :: ['/'].intercalate segs) = '/' :: ['/'].intercalate segs := by
  obtain ⟨a, rest, rfl⟩ := List.exists_cons_of_ne_nil hne
  have hi : '/' :: ['/'].intercalate (a :: rest) = ['/'].intercalate ([] :: a :: rest) := by
    rw [intercalate_cons_cons]; rfl
  have hsplit : (['/'].intercalate ([] :: a :: rest)).splitOn '/' = [] :: a :: rest :=
    List.splitOn_intercalate _ '/'
      (fun l hl => by
        rcases List.mem_cons.1 hl with rfl | hl
        · simp
        · exact (h l hl).2.1)
      (by simp)
  have hfold := filepath.foldl_cleanStep_plain true (a :: rest)
    (fun seg hs => ⟨(h seg hs).1, (h seg hs).2.2.1, (h seg hs).2.2.2⟩) []
  have hstep : filepath.cleanStep true [] [] = [] := by simp [filepath.cleanStep]
  have hs2 : ('/' :: ['/'].intercalate (a :: rest)).splitOn '/' = [] :: a :: rest := by
    rw [hi]; exact hsplit
  have hr : decide (('/' :: ['/'].intercalate (a :: rest)).head? = some '/') = true := by simp
  unfold filepath.cleanChars
  simp only [hs2, hr, List.foldl_cons, hstep, hfold]
  simp

theorem filepath.Join_rooted (d a b : String) (hd : cleanRooted d) (ha : plainElem a)
    (hb : plainElem b) : filepath.Join [d, a, b] = d ++ "/" ++ a ++ "/" ++ b := by
  obtain ⟨segs, hne, hsegs, hdata⟩ := hd
  have hdne : d.data ≠ [] := by rw [hdata]; simp
  have hi : ['/'].intercalate [d.data, a.data, b.data]
      = '/' :: ['/'].intercalate (segs ++ [a.data, b.data]) := by
    rw [intercalate_append segs _ hne (by simp), intercalate_cons_cons, hdata]
    simp
  have hc := filepath.cleanChars_rooted (segs ++ [a.data, b.data]) (by simp)
    (by
      intro seg hs
      rcases List.mem_append.1 hs with hs | hs
      · exact hsegs seg hs
      · simp only [List.mem_cons, List.mem_singleton, List.not_mem_nil, or_false] at hs
        rcases hs with rfl | rfl
        · exact ha
        · exact hb)
  unfold filepath.Join
  simp only [List.dropWhile, hdne, decide_False, List.map_cons, List.map_nil, hi, hc]
  apply String.ext
  rw [intercalate_append segs _ hne (by simp), intercalate_cons_cons]
  simp [hdata, List.intercalate, List.intersperse]

/-! ### Implied stages -/

theorem HasPrefix_sPrefix (x : String) :
    strings.HasPrefix (sPrefix x) "/bin/bash -xeu -o pipefail " = true := by
  unfold strings.HasPrefix sPrefix
  rw [List.isPrefixOf_iff_prefix, String.data_append]
  exact List.prefix_append _ _

theorem scriptLoop_spec {σ : Type} (dir : String) (m : minioServer)
    (copyFile : σ → String → String → σ × Option String) :
    ∀ (found : List String) (fs : σ) (files : List RemoteFile) (scripts : List String),
      (scriptLoop dir m copyFile fs found files scripts).err = none →
      (scriptLoop dir m copyFile fs found files scripts).remoteFiles
        = files ++ found.map (fun s =>
            { Bucket := srvBucket, Object := filepath.Base s, Minio := m }) ∧
      (scriptLoop dir m copyFile fs found files scripts).scripts
        = scripts ++ found.map (fun s =>
            sPrefix (filepath.Join [dir, srvBucket, filepath.Base s])) := by
  intro found
  induction found with
  | nil => intro fs files scripts _; simp [scriptLoop]
  | cons s rest ih =>
    intro fs files scripts h
    rcases hc : copyFile fs s (filepath.Join [dir, srvBucket, filepath.Base s]) with ⟨fs', e⟩
    cases e with
    | some err => simp [scriptLoop, hc] at h
    | none =>
      simp only [scriptLoop, hc] at h ⊢
      obtain ⟨h1, h2⟩ := ih fs' _ _ h
      rw [h1, h2]
      simp

/-- C14: with strict mode set, discoverStages leaves the receiver, and so its stage list,
and the file system as they are and returns no remote files and no error, for every value
of COSA_CMDS and every list of discovered scripts. -/
theorem discoverStages_strict {σ : Type} (dir : String) (m : minioServer)
    (copyFile : σ → String → String → σ × Option String) (found : List String) (fs : σ)
    (bc : buildConfig) (h : bc.JobSpec.Job.StrictMode = true) :
    discoverStages dir m copyFile found fs bc
      = { bc := bc, fs := fs, remoteFiles := [], err := none } ∧
    (discoverStages dir m copyFile found fs bc).bc.JobSpec.Stages = bc.JobSpec.Stages := by
  simp [discoverStages, h]

/-- C15: with strict mode off and no copy failing, discoverStages returns one remote file
per discovered script, in order, with bucket "source" and the base name of the script as
object; when there is at least one script it appends, after the stage of COSA_CMDS if there
is one, exactly one stage with ID "cosa.sh" whose commands are, in order, the strict shell
invocation followed by the path joining the working directory, "source" and the base name
of the script, and with no script it appends no such stage. For a clean absolute working
directory and a plain base name the path is the text dir/source/name. -/
theorem discoverStages_scripts {σ : Type} (dir : String) (m : minioServer)
    (copyFile : σ → String → String → σ × Option String) (found : List String) (fs : σ)
    (bc : buildConfig) (h : bc.JobSpec.Job.StrictMode = false)
    (hcopy : (discoverStages dir m copyFile found fs bc).err = none) :
    (discoverStages dir m copyFile found fs bc).remoteFiles
      = found.map (fun s =>
          ({ Artifact := none, Bucket := "source", Minio := m, Object := filepath.Base s,
             Compressed := false } : RemoteFile)) ∧
    (discoverStages dir m copyFile found fs bc).bc.JobSpec.Stages
      = bc.JobSpec.Stages ++
        (if bc.CosaCmds ≠ "" then [envVarStage bc.CosaCmds] else []) ++
        (if found = [] then []
         else [({ ID := "cosa.sh", Description := "*.cosa.sh scripts", DirectExec := true,
                  Commands := found.map (fun s => "/bin/bash -xeu -o pipefail " ++
                    filepath.Join [dir, "source", filepath.Base s]),
                  ExecutionOrder := 0, RequireArtifacts := [] } : Stage)]) ∧
    (∀ s : String, cleanRooted dir → plainElem (filepath.Base s) →
      filepath.Join [dir, "source", filepath.Base s]
        = dir ++ "/" ++ "source" ++ "/" ++ filepath.Base s) := by
  refine ⟨?_, ?_, fun s hd hs => filepath.Join_rooted dir "source" _ hd (by decide) hs⟩
  · unfold discoverStages at hcopy ⊢
    simp only [h, Bool.false_eq_true, if_false] at hcopy ⊢
    cases he : (scriptLoop dir m copyFile fs found [] []).err with
    | some err => rw [he] at hcopy; simp at hcopy
    | none =>
      simp only [he]
      rw [(scriptLoop_spec dir m copyFile found fs [] [] he).1]
      rfl
  · unfold discoverStages at hcopy ⊢
    simp only [h, Bool.false_eq_true, if_false] at hcopy ⊢
    cases he : (scriptLoop dir m copyFile fs found [] []).err with
    | some err => rw [he] at hcopy; simp at hcopy
    | none =>
      simp only [he]
      rw [(scriptLoop_spec dir m copyFile found fs [] [] he).2]
      by_cases hc : bc.CosaCmds = "" <;> cases found <;>
        simp [hc, cosaShStage, sPrefix, srvBucket]

/-- C16: with strict mode off, discoverStages changes nothing of the receiver but its stage
list, to which it appends the stage of COSA_CMDS exactly when COSA_CMDS is not empty, with
the single command made of the strict shell invocation followed by COSA_CMDS, and then at
most one stage, with ID "cosa.sh"; every command of the appended stages starts with the
strict shell invocation. -/
theorem discoverStages_implied {σ : Type} (dir : String) (m : minioServer)
    (copyFile : σ → String → String → σ × Option String) (found : List String) (fs : σ)
    (bc : buildConfig) (h : bc.JobSpec.Job.StrictMode = false) :
    ∃ scriptPart : List Stage, scriptPart.length ≤ 1 ∧
      (∀ st ∈ scriptPart, st.ID = "cosa.sh") ∧
      (discoverStages dir m copyFile found fs bc).bc
        = { bc with JobSpec := { bc.JobSpec with
            Stages := bc.JobSpec.Stages ++
              (if bc.CosaCmds ≠ "" then
                [({ ID := "envVar", Description := "envVar defined commands", DirectExec := true,
                    Commands := ["/bin/bash -xeu -o pipefail " ++ bc.CosaCmds],
                    ExecutionOrder := 0, RequireArtifacts := [] } : Stage)]
               else []) ++ scriptPart } } ∧
      (∀ st ∈ (if bc.CosaCmds ≠ "" then [envVarStage bc.CosaCmds] else []) ++ scriptPart,
        ∀ c ∈ st.Commands, strings.HasPrefix c "/bin/bash -xeu -o pipefail " = true) := by
  have henv : ∀ st ∈ (if bc.CosaCmds ≠ "" then [envVarStage bc.CosaCmds] else []),
      ∀ c ∈ st.Commands, strings.HasPrefix c "/bin/bash -xeu -o pipefail " = true := by
    intro st hst c hc
    split_ifs at hst with h0
    · simp only [List.mem_singleton] at hst
      subst hst
      simp only [envVarStage, List.mem_singleton] at hc
      subst hc
      exact HasPrefix_sPrefix _
    · cases hst
  cases he : (scriptLoop dir m copyFile fs found [] []).err with
  | some err =>
    refine ⟨[], by simp, by simp, ?_, by simpa using henv⟩
    unfold discoverStages
    simp only [h, Bool.false_eq_true, if_false, he]
    rcases bc with ⟨_, _, _, cmds, _, _, _, _, _, ⟨_, _⟩⟩
    by_cases hc : cmds = "" <;> simp [hc, envVarStage, sPrefix]
  | none =>
    have hsc := (scriptLoop_spec dir m copyFile found fs [] [] he).2
    by_cases hf : (scriptLoop dir m copyFile fs found [] []).scripts.length > 0
    · refine ⟨[cosaShStage (scriptLoop dir m copyFile fs found [] []).scripts], by simp,
        by simp [cosaShStage], ?_, ?_⟩
      · unfold discoverStages
        simp only [h, Bool.false_eq_true, if_false, he, hf, if_true]
        by_cases hc : bc.CosaCmds = "" <;> simp [hc, envVarStage, sPrefix]
      · intro st hst c hc
        rcases List.mem_append.1 hst with hst | hst
        · exact henv st hst c hc
        · simp only [List.mem_singleton] at hst
          subst hst
          simp only [cosaShStage] at hc
          rw [hsc] at hc
          simp only [List.nil_append, List.mem_map] at hc
          obtain ⟨s, _, rfl⟩ := hc
          exact HasPrefix_sPrefix _
    · refine ⟨[], by simp, by simp, ?_, by simpa using henv⟩
      unfold discoverStages
      simp only [h, Bool.false_eq_true, if_false, he, hf]
      rcases bc with ⟨_, _, _, cmds, _, _, _, _, _, ⟨_, _⟩⟩
      by_cases hc : cmds = "" <;> simp [hc, envVarStage, sPrefix]

/-- C17: with COSA_CMDS set and one script discovered, discoverStages appends the envVar
stage and the cosa.sh stage, both of ordinal 0; they form one group, whose tasks are started
together, and the cosa.sh stage is dispatched while the envVar stage has not been
dispatched yet. -/
theorem implied_stages_share_group :
    (discoverStages "/srv" demoCtx.m copyOk ["build.cosa.sh"] () impliedBc).bc.JobSpec.Stages
      = [envVarStage "cosa build",
         cosaShStage ["/bin/bash -xeu -o pipefail /srv/source/build.cosa.sh"]] ∧
    (envVarStage "cosa build").ExecutionOrder
      = (cosaShStage ["/bin/bash -xeu -o pipefail /srv/source/build.cosa.sh"]).ExecutionOrder ∧
    groupStages (fun s => Except.ok s) 0
        (discoverStages "/srv" demoCtx.m copyOk ["build.cosa.sh"] () impliedBc).bc.JobSpec.Stages []
      = Except.ok impliedCfg.workerFuncs ∧
    (run impliedCfg (initExec impliedCfg)
        [Action.loop, Action.poll 1 emptyWorld Launch.runs]).map
        (fun st => (st.trace, st.phases))
      = some ([Event.started 0, Event.started 1, Event.dispatched 1],
              [TaskPhase.waiting, TaskPhase.dispatched]) :=
  ⟨by decide, rfl, rfl, by decide⟩

/-! ### Sample runs of the implied stages and of a failing task -/

/-- The failing task of `sendingState`: reached by a run, it cannot poll, and the
coordinator's receive makes it return. -/
theorem failed_task_sends_once_witness :
    0 < sendingState.phases.length ∧
    run oneGroupCfg (initExec oneGroupCfg)
        [Action.loop, Action.poll 0 emptyWorld Launch.runs, Action.workerReturns 0 true]
      = some sendingState ∧
    (∀ w o, stepPoll oneGroupCfg sendingState 0 w o = none) ∧
    (stepCoordRecvErr sendingState 0).map (fun st => phaseOf st 0) = some TaskPhase.returned :=
  ⟨by decide, by decide,
    ((failed_task_sends_once oneGroupCfg sendingState 0 (by decide)).2.2.1 (by decide)).1,
    by decide⟩

/-- Strict mode with commands in COSA_CMDS and a script in the directory. -/
theorem discoverStages_strict_witness :
    strictBc.JobSpec.Job.StrictMode = true ∧
    (discoverStages "/srv" demoCtx.m copyOk ["build.cosa.sh"] () strictBc).bc.JobSpec.Stages
      = strictBc.JobSpec.Stages :=
  ⟨rfl, (discoverStages_strict "/srv" demoCtx.m copyOk ["build.cosa.sh"] () strictBc rfl).2⟩

/-- Three scripts discovered with strict mode off. -/
theorem discoverStages_scripts_witness :
    impliedBc.JobSpec.Job.StrictMode = false ∧
    (discoverStages "/srv" demoCtx.m copyOk ["a.cosa.sh", "b.cosa.sh", "c.cosa.sh"] ()
      impliedBc).err = none ∧
    (discoverStages "/srv" demoCtx.m copyOk ["a.cosa.sh", "b.cosa.sh", "c.cosa.sh"] ()
      impliedBc).remoteFiles
      = ["a.cosa.sh", "b.cosa.sh", "c.cosa.sh"].map (fun s =>
          ({ Artifact := none, Bucket := "source", Minio := demoCtx.m, Object := filepath.Base s,
             Compressed := false } : RemoteFile)) :=
  ⟨rfl, by decide,
    (discoverStages_scripts "/srv" demoCtx.m copyOk ["a.cosa.sh", "b.cosa.sh", "c.cosa.sh"] ()
      impliedBc rfl (by decide)).1⟩

/-- Strict mode off with commands in COSA_CMDS and one script. -/
theorem discoverStages_implied_witness :
    impliedBc.JobSpec.Job.StrictMode = false ∧
    ∃ scriptPart : List Stage, scriptPart.length ≤ 1 ∧
      (∀ st ∈ scriptPart, st.ID = "cosa.sh") ∧
      (discoverStages "/srv" demoCtx.m copyOk ["build.cosa.sh"] () impliedBc).bc.JobSpec.Stages
        = [({ ID := "envVar", Description := "envVar defined commands", DirectExec := true,
              Commands := ["/bin/bash -xeu -o pipefail cosa build"] } : Stage)] ++ scriptPart := by
  refine ⟨rfl, ?_⟩
  obtain ⟨sp, h1, h2, h3, _⟩ :=
    discoverStages_implied "/srv" demoCtx.m copyOk ["build.cosa.sh"] () impliedBc rfl
  refine ⟨sp, h1, h2, ?_⟩
  rw [h3]
  rfl

/-! ### The artifact store -/

theorem splitOnP_no_sep (p : Char → Bool) (l : List Char) :
    ∀ seg ∈ l.splitOnP p, ∀ c ∈ seg, p c = false := by
  induction l with
  | nil => intro seg hs c hc; simp at hs; subst hs; cases hc
  | cons a rest ih =>
    intro seg hs c hc
    rw [List.splitOnP_cons] at hs
    by_cases ha : p a = true
    · rw [if_pos ha] at hs
      rcases List.mem_cons.1 hs with rfl | hs
      · cases hc
      · exact ih seg hs c hc
    · rw [if_neg ha] at hs
      obtain ⟨hd, tl, hsp⟩ := List.exists_cons_of_ne_nil (List.splitOnP_ne_nil p rest)
      rw [hsp] at hs ih
      simp only [List.modifyHead, List.mem_cons] at hs
      rcases hs with rfl | hs
      · rcases List.mem_cons.1 hc with rfl | hc
        · simpa using ha
        · exact ih hd (List.mem_cons_self _ _) c hc
      · exact ih seg (List.mem_cons_of_mem _ hs) c hc

theorem splitOn_no_sep (l : List Char) : ∀ seg ∈ l.splitOn '/', '/' ∉ seg := by
  intro seg hs hc
  have := splitOnP_no_sep (fun c => c == '/') l seg hs '/' hc
  simp at this

/-- C18: a remote Open on a backend without client returns ErrNoMinioClient for every path,
makes no request and leaves the backend as it is; and whenever Open returns, the error is
ErrNoMinioClient exactly when the client is nil. -/
theorem remoteOpen_no_client (im : ioBackendMinio) (p : String) :
    (im.m = none →
      im.Open p = some { im := im, ret := .error CosaError.ErrNoMinioClient, requests := [] }) ∧
    (∀ r, im.Open p = some r → (r.ret = .error CosaError.ErrNoMinioClient ↔ im.m = none)) := by
  constructor
  · intro h
    simp [ioBackendMinio.Open, h]
  · intro r hr
    cases hm : im.m with
    | none =>
      simp only [ioBackendMinio.Open, hm, Option.some.injEq] at hr
      subst hr
      simp
    | some client =>
      simp only [ioBackendMinio.Open, hm] at hr
      cases hsp : strings.Split p '/' with
      | nil => rw [hsp] at hr; cases hr
      | cons bucket rest =>
        rw [hsp] at hr
        simp only at hr
        cases hg : client.GetObject bucket (strings.Join rest "/") with
        | error e =>
          rw [hg] at hr
          simp only [Option.some.injEq] at hr
          subst hr
          simp
        | ok obj =>
          rw [hg] at hr
          simp only [Option.some.injEq] at hr
          subst hr
          simp

/-- C19: with a client attached, remote Open returns (it does not panic on the indexing)
and makes one request, for the bucket that is the first element of the split of the path at
"/" and the key that joins the other elements with "/": the bucket holds no "/", for a path
holding "/" bucket, "/" and key make up the path, and for a path without "/" the bucket is
the path and the key is empty. -/
theorem remoteOpen_split (im : ioBackendMinio) (client : Client) (p : String)
    (h : im.m = some client) :
    ∃ (r : OpenResult) (bucket key : String),
      im.Open p = some r ∧ r.requests = [(bucket, key)] ∧
      (∃ rest, strings.Split p '/' = bucket :: rest ∧ key = strings.Join rest "/") ∧
      '/' ∉ bucket.data ∧
      ('/' ∈ p.data → bucket ++ "/" ++ key = p) ∧
      ('/' ∉ p.data → bucket = p ∧ key = "") := by
  obtain ⟨hd, tl, hsp⟩ := List.exists_cons_of_ne_nil (List.splitOnP_ne_nil (· == '/') p.data)
  have hsp' : p.data.splitOn '/' = hd :: tl := hsp
  have hsplit : strings.Split p '/' = String.mk hd :: tl.map String.mk := by
    simp [strings.Split, hsp']
  have hjoin : strings.Join (tl.map String.mk) "/" = String.mk (['/'].intercalate tl) := by
    simp [strings.Join, Function.comp_def]
  have hinter : ['/'].intercalate (hd :: tl) = p.data := by
    rw [← hsp']; exact List.intercalate_splitOn p.data '/'
  have hhd : '/' ∉ hd := splitOn_no_sep p.data hd (by rw [hsp']; exact List.mem_cons_self _ _)
  have hreq : ∃ r, im.Open p = some r ∧
      r.requests = [(String.mk hd, strings.Join (tl.map String.mk) "/")] := by
    simp only [ioBackendMinio.Open, h, hsplit]
    cases client.GetObject (String.mk hd) (strings.Join (tl.map String.mk) "/") with
    | error e => exact ⟨_, rfl, rfl⟩
    | ok obj => exact ⟨_, rfl, rfl⟩
  obtain ⟨r, hr1, hr2⟩ := hreq
  refine ⟨r, String.mk hd, strings.Join (tl.map String.mk) "/", hr1, hr2,
    ⟨tl.map String.mk, hsplit, rfl⟩, hhd, ?_, ?_⟩
  · intro hp
    cases tl with
    | nil =>
      exfalso
      apply hhd
      have : hd = p.data := by simpa [List.intercalate] using hinter
      rw [this]; exact hp
    | cons b rest =>
      rw [hjoin]
      apply String.ext
      rw [← hinter, intercalate_cons_cons]
      simp
  · intro hp
    have hs1 : p.data.splitOn '/' = [p.data] :=
      List.splitOnP_eq_single _ _ (fun x hx hx' => hp (by
        have : x = '/' := by simpa using hx'
        rw [← this]; exact hx))
    rw [hsp'] at hs1
    simp only [List.cons.injEq] at hs1
    obtain ⟨rfl, rfl⟩ := hs1
    exact ⟨rfl, by simp [strings.Join]; rfl⟩

theorem length_defaultWalkFunc_tree (entries : List TreeEntry) (p : String) :
    (defaultWalkFunc (fun _ => walkOfTree entries) p).length = entries.length := by
  unfold defaultWalkFunc walkOfTree
  induction entries with
  | nil => rfl
  | cons e rest ih => simp [List.filterMap_cons, ih]

theorem length_minioWalk_tree (bucket : String) (entries : List TreeEntry) (p : String)
    (l : List objectInfo)
    (h : createMinioWalkFunc (bucketClient bucket (objectsOfTree entries)) p = some l) :
    l.length ≤ (entries.filter (fun e => !e.IsDir)).length := by
  unfold createMinioWalkFunc at h
  split at h
  · cases h
  · simp only [Option.some.injEq] at h
    subst h
    simp only [bucketClient, List.length_map]
    split_ifs <;>
      first
      | exact (List.length_filter_le _ _).trans (by simp [objectsOfTree])
      | simp

/-- C20: for the tree rooted at the directory `builds` and the bucket holding its two
regular files, the file-backed walk yields four descriptors, the root and the directory of
the build among them and every one with a false directory flag, while the object-store walk
yields two: the names and sizes of the two listings are not the same multiset. The same
holds for every tree that holds a directory. -/
theorem listing_backends_differ :
    nameSizes (defaultWalkFunc (fun _ => walkOfTree demoTree) "builds")
      = [("builds", 4096), ("builds.json", 120), ("35.1", 4096), ("meta.json", 10)] ∧
    (defaultWalkFunc (fun _ => walkOfTree demoTree) "builds").map (fun ao => ao.IsDir)
      = [false, false, false, false] ∧
    (createMinioWalkFunc (bucketClient "builds" (objectsOfTree demoTree)) "builds").map nameSizes
      = some [("builds.json", 120), ("meta.json", 10)] ∧
    ¬ List.Perm
        [(("builds", 4096) : String × Int), ("builds.json", 120), ("35.1", 4096),
         ("meta.json", 10)]
        [("builds.json", 120), ("meta.json", 10)] ∧
    (∀ (bucket p : String) (entries : List TreeEntry) (l : List objectInfo),
      (∃ e ∈ entries, e.IsDir = true) →
      createMinioWalkFunc (bucketClient bucket (objectsOfTree entries)) p = some l →
      ¬ List.Perm (nameSizes (defaultWalkFunc (fun _ => walkOfTree entries) p)) (nameSizes l)) := by
  refine ⟨by decide, by decide, by decide, by decide, ?_⟩
  intro bucket p entries l ⟨e, he, hd⟩ hl hperm
  have h1 := hperm.length_eq
  simp only [nameSizes, List.length_map, length_defaultWalkFunc_tree] at h1
  have h2 := length_minioWalk_tree bucket entries p l hl
  have h3 : (entries.filter (fun e => !e.IsDir)).length < entries.length := by
    apply List.length_filter_lt_length_iff_exists.2
    exact ⟨e, he, by simp [hd]⟩
  omega

/-- A path with a bucket and a key, opened on the backend of the bucket `builds`. -/
theorem remoteOpen_split_witness :
    demoBackend.m = some (bucketClient "builds" (objectsOfTree demoTree)) ∧
    ∃ (r : OpenResult) (bucket key : String),
      demoBackend.Open "builds/35.1/meta.json" = some r ∧ r.requests = [(bucket, key)] ∧
      bucket ++ "/" ++ key = "builds/35.1/meta.json" := by
  refine ⟨rfl, ?_⟩
  obtain ⟨r, bucket, key, h1, h2, _, _, h5, _⟩ :=
    remoteOpen_split demoBackend (bucketClient "builds" (objectsOfTree demoTree))
      "builds/35.1/meta.json" rfl
  exact ⟨r, bucket, key, h1, h2, h5 (by decide)⟩

/-! ### The builds index -/

theorem archLoop_iff (arch : String) (arches : List String) :
    archLoop arch arches = true ↔ arch ∈ arches := by
  induction arches with
  | nil => simp [archLoop]
  | cons a rest ih =>
    by_cases h : a = arch
    · simp [archLoop, h]
    · have h' : ¬ arch = a := fun e => h e.symm
      simp [archLoop, h, h', ih]

theorem buildLoop_find (arch : String) (builds : List build) :
    buildLoop arch builds
      = match builds.find? (fun x => decide (arch ∈ x.Arches)) with
        | some x => (x.ID, true)
        | none => ("", false) := by
  induction builds with
  | nil => rfl
  | cons b rest ih =>
    by_cases h : arch ∈ b.Arches
    · simp [buildLoop, (archLoop_iff arch b.Arches).2 h, List.find?_cons, h]
    · have h' : archLoop arch b.Arches = false := by
        rw [← Bool.not_eq_true, archLoop_iff]; exact h
      simp [buildLoop, h', List.find?_cons, h, ih]

/-- C24: getLatest returns the ID of the first build of the list, in list order, whose
Arches holds the architecture, together with true; it returns the empty ID with false
when no build lists the architecture, and only then. -/
theorem getLatest_first_match (b : buildsJSON) (arch : String) :
    (b.getLatest arch
      = match b.Builds.find? (fun x => decide (arch ∈ x.Arches)) with
        | some x => (x.ID, true)
        | none => ("", false)) ∧
    (∀ (pre post : List build) (x : build), b.Builds = pre ++ x :: post → arch ∈ x.Arches →
      (∀ y ∈ pre, arch ∉ y.Arches) → b.getLatest arch = (x.ID, true)) ∧
    (b.getLatest arch = ("", false) ↔ ∀ x ∈ b.Builds, arch ∉ x.Arches) := by
  have hfind := buildLoop_find arch b.Builds
  refine ⟨hfind, ?_, ?_⟩
  · intro pre post x hsplit hx hpre
    unfold buildsJSON.getLatest
    rw [hfind, hsplit, List.find?_append]
    have hnone : List.find? (fun x => decide (arch ∈ x.Arches)) pre = none := by
      rw [List.find?_eq_none]
      intro y hy
      simpa using hpre y hy
    simp [hnone, List.find?_cons, hx]
  · unfold buildsJSON.getLatest
    rw [hfind]
    cases hf : b.Builds.find? (fun x => decide (arch ∈ x.Arches)) with
    | none =>
      simp only [true_iff]
      intro x hx
      have := List.find?_eq_none.1 hf x hx
      simpa using this
    | some x =>
      have hmem := List.mem_of_find?_eq_some hf
      have hx := List.find?_some hf
      simp only [Prod.mk.injEq, Bool.true_eq_false, and_false, false_iff, not_forall]
      exact ⟨x, hmem, by simpa using hx⟩

/-! ### The backend switch -/

/-- C21: SetIOBackendMinio with a nil client returns an error and leaves both package
variables as they are; with a client it makes the object store serve both Open and the walk
function. SetIOBackendFile after it makes the file backend serve Open, and leaves the walk
function with the object store: the listing is the one of createMinioWalkFunc for the
client set before. -/
theorem file_switch_keeps_store_walk :
    (∀ pkg : CosaPkg, (SetIOBackendMinio pkg none).1 = pkg ∧
      (SetIOBackendMinio pkg none).2 = some "minio client must not be nil") ∧
    (∀ (pkg : CosaPkg) (c : Client) (osOpen : String → Except String Object)
        (Walk : String → List (Except String FileInfo)) (p : String),
      (SetIOBackendMinio pkg (some c)).2 = none ∧
      (Open osOpen (SetIOBackendMinio pkg (some c)).1 p).1.byFile = false ∧
      (callWalkFn Walk (SetIOBackendMinio pkg (some c)).1 p).byFile = false) ∧
    (∀ (pkg : CosaPkg) (c : Client) (osOpen : String → Except String Object)
        (Walk : String → List (Except String FileInfo)) (p : String),
      (Open osOpen (SetIOBackendFile (SetIOBackendMinio pkg (some c)).1) p).1
        = Opened.file p (osOpen p) ∧
      callWalkFn Walk (SetIOBackendFile (SetIOBackendMinio pkg (some c)).1) p
        = Listed.objectStore (createMinioWalkFunc c p)) ∧
    (callWalkFn (fun _ => walkOfTree demoTree)
        (SetIOBackendFile (SetIOBackendMinio CosaPkg.initial
          (some (bucketClient "builds" []))).1) "builds").byFile = false :=
  ⟨fun _ => ⟨rfl, rfl⟩, fun _ _ _ _ _ => ⟨rfl, rfl, rfl⟩, fun _ _ _ _ _ => ⟨rfl, rfl⟩, rfl⟩

/-! ### The OpenShift build client and `newBC` -/

/-- C22: when ocpBuildClient returns no error, the value of BUILD decoded to a build, and
cosaSrvDir is the source context directory of that build if it is neither empty nor "/",
and is what it was otherwise. -/
theorem ocpBuildClient_contextDir (LookupEnv : String → Option String)
    (Decode : String → Decoded) (vars : OcpVars)
    (h : (ocpBuildClient LookupEnv Decode vars).2 = none) :
    ∃ v b, LookupEnv "BUILD" = some v ∧ Decode v = Decoded.build b ∧
      (ocpBuildClient LookupEnv Decode vars).1.cosaSrvDir
        = if b.ContextDir ≠ "" ∧ b.ContextDir ≠ "/" then b.ContextDir else vars.cosaSrvDir := by
  unfold ocpBuildClient at h ⊢
  cases hl : LookupEnv "BUILD" with
  | none => simp [hl] at h
  | some v =>
    cases hd : Decode v with
    | failed => simp [hl, hd] at h
    | other => simp [hl, hd] at h
    | build b =>
      refine ⟨v, b, rfl, hd, ?_⟩
      simp only [hl, hd] at h ⊢
      by_cases hs : b.StrategyType ≠ "" ∧ b.StrategyType ≠ "Custom"
      · simp [hs] at h
      · by_cases hc : b.ContextDir ≠ "" ∧ b.ContextDir ≠ "/"
        · simp only [if_neg hs, if_pos hc]
        · simp only [if_neg hs, if_neg hc]

/-- C23: ocpBuildClient returns ErrNoOCPBuildSpec when BUILD is not set, when its value
does not decode and when it decodes to something that is not a build; it returns the
unsupported build strategy error when the strategy type of the build is neither empty nor
"Custom"; it returns nil in every other case. Whenever it returns an error, newBC returns
that error and no buildConfig. -/
theorem ocpBuildClient_errors (env : NewBCEnv) (vars : OcpVars) :
    (env.LookupEnv "BUILD" = none →
      (ocpBuildClient env.LookupEnv env.Decode vars).2 = some OcpError.ErrNoOCPBuildSpec) ∧
    (∀ v, env.LookupEnv "BUILD" = some v →
      env.Decode v = Decoded.failed ∨ env.Decode v = Decoded.other →
      (ocpBuildClient env.LookupEnv env.Decode vars).2 = some OcpError.ErrNoOCPBuildSpec) ∧
    (∀ v b, env.LookupEnv "BUILD" = some v → env.Decode v = Decoded.build b →
      b.StrategyType ≠ "" → b.StrategyType ≠ "Custom" →
      (ocpBuildClient env.LookupEnv env.Decode vars).2
        = some OcpError.unsupportedBuildStrategy) ∧
    (∀ v b, env.LookupEnv "BUILD" = some v → env.Decode v = Decoded.build b →
      b.StrategyType = "" ∨ b.StrategyType = "Custom" →
      (ocpBuildClient env.LookupEnv env.Decode vars).2 = none) ∧
    (∀ e, (ocpBuildClient env.LookupEnv env.Decode vars).2 = some e →
      (newBC env vars).bc = none ∧ (newBC env vars).err = some e) := by
  refine ⟨?_, ?_, ?_, ?_, ?_⟩
  · intro h
    simp [ocpBuildClient, h]
  · intro v hv hd
    rcases hd with hd | hd <;> simp [ocpBuildClient, hv, hd]
  · intro v b hv hd h1 h2
    simp [ocpBuildClient, hv, hd, h1, h2]
  · intro v b hv hd hs
    have hn : ¬ (b.StrategyType ≠ "" ∧ b.StrategyType ≠ "Custom") := by
      rintro ⟨h1, h2⟩
      rcases hs with hs | hs
      · exact h1 hs
      · exact h2 hs
    unfold ocpBuildClient
    simp only [hv, hd, if_neg hn]
    split_ifs <;> rfl
  · intro e he
    unfold newBC
    rcases hr : ocpBuildClient env.LookupEnv env.Decode vars with ⟨vars1, err⟩
    rw [hr] at he
    simp only at he
    subst he
    exact ⟨rfl, rfl⟩

/-- C25: with a local job specification file that reads without error and a repository that
cannot be read, the buildConfig newBC returns holds not the specification of the file but
the empty one the repository read came back with; without a local file and with a readable
repository it holds the value the failed file read came back with, not the specification
of the repository. In general the value of a failed file read is kept and the repository
is not asked, and after a successful file read only the value of a failed repository read
is assigned. -/
theorem newBC_drops_read_jobspec :
    (newBC localSpecEnv srvVars).err = none ∧
    (newBC localSpecEnv srvVars).bc.map (fun v => v.JobSpec) = some {} ∧
    (localSpecEnv.JobSpecFromFile "/srv/jobspec.yaml" = (fileSpec, none) ∧ fileSpec ≠ {}) ∧
    (newBC repoSpecEnv srvVars).bc.map (fun v => v.JobSpec) = some {} ∧
    (repoSpecEnv.JobSpecFromRepo "" "jobspec.yaml" "jobspec.yaml" = (repoSpec, none) ∧
      repoSpec ≠ {}) ∧
    (∀ (env : NewBCEnv) (dir : String) (v : buildConfig) (js : JobSpec) (e : String),
      env.JobSpecFromFile (filepath.Join [dir,
          if v.JobSpecFile ≠ "" then v.JobSpecFile else env.DefaultJobSpecFile]) = (js, some e) →
      (locateJobSpec env dir v).JobSpec = js) ∧
    (∀ (env : NewBCEnv) (dir : String) (v : buildConfig) (js njs : JobSpec),
      env.JobSpecFromFile (filepath.Join [dir,
          if v.JobSpecFile ≠ "" then v.JobSpecFile else env.DefaultJobSpecFile]) = (js, none) →
      env.JobSpecFromRepo v.JobSpecURL
          (if v.JobSpecFile ≠ "" then v.JobSpecFile else env.DefaultJobSpecFile)
          (filepath.Base (filepath.Join [dir,
            if v.JobSpecFile ≠ "" then v.JobSpecFile else env.DefaultJobSpecFile])) = (njs, none) →
      (locateJobSpec env dir v).JobSpec = v.JobSpec) := by
  refine ⟨by decide, by decide, ⟨by decide, by decide⟩, by decide, ⟨rfl, by decide⟩, ?_, ?_⟩
  · intro env dir v js e h
    simp only [locateJobSpec, h]
  · intro env dir v js njs h1 h2
    simp only [locateJobSpec, h1, h2]

/-! ### The upload to the registry -/

/-- C26: for a build and a registry configuration that are not nil, uploadOstreeToRegistry
runs the program podman with the one argument "podman", the slice args[:1], and not with
the push arguments that follow the program name in args; with a nil build or a nil
registry configuration it returns an error and runs nothing. -/
theorem upload_runs_podman_podman :
    (∀ (ostreePath : Build → String) (Run : String → List String → Option String)
        (CombinedOutput : String → List String → String) (build : Build) (r : registryUpload),
      (uploadOstreeToRegistry ostreePath Run CombinedOutput (some build) (some r)).ran
        = [("podman", ["podman"])]) ∧
    (uploadOstreeToRegistry (fun _ => "/srv/builds/35.1/x86_64/fcos-35.1-ostree.ociarchive")
        (fun _ _ => none) (fun _ _ => "") (some demoBuild) (some demoRegistry)).ran
      ≠ [("podman", ["push", "--authfile=/cfg/auth",
          "oci-archive:/srv/builds/35.1/x86_64/fcos-35.1-ostree.ociarchive",
          "registry.local/fcos:35"])] ∧
    (∀ (ostreePath : Build → String) (Run : String → List String → Option String)
        (CombinedOutput : String → List String → String) (r : Option registryUpload),
      uploadOstreeToRegistry ostreePath Run CombinedOutput none r
        = { err := some "build is nil", ran := [] }) ∧
    (∀ (ostreePath : Build → String) (Run : String → List String → Option String)
        (CombinedOutput : String → List String → String) (build : Build),
      uploadOstreeToRegistry ostreePath Run CombinedOutput (some build) none
        = { err := some "upload registry is nil", ran := [] }) := by
  refine ⟨?_, by decide, fun _ _ _ _ => rfl, fun _ _ _ _ => rfl⟩
  intro ostreePath Run CombinedOutput build r
  simp only [uploadOstreeToRegistry, List.headD_cons, List.take_succ_cons, List.take_zero]
  cases Run "podman" ["podman"] <;> rfl

/-- A build of the custom strategy type with the context directory `/work`. -/
theorem ocpBuildClient_contextDir_witness :
    (ocpBuildClient (fun _ => some "build")
        (fun _ => Decoded.build { StrategyType := "Custom", ContextDir := "/work" }) srvVars).2
      = none ∧
    ∃ v b, (fun (_ : String) => some "build") "BUILD" = some v ∧
      (fun (_ : String) => Decoded.build { StrategyType := "Custom", ContextDir := "/work" }) v
        = Decoded.build b ∧
      (ocpBuildClient (fun _ => some "build")
          (fun _ => Decoded.build { StrategyType := "Custom", ContextDir := "/work" })
          srvVars).1.cosaSrvDir
        = if b.ContextDir ≠ "" ∧ b.ContextDir ≠ "/" then b.ContextDir else srvVars.cosaSrvDir :=
  ⟨by decide, ocpBuildClient_contextDir (fun _ => some "build")
    (fun _ => Decoded.build { StrategyType := "Custom", ContextDir := "/work" }) srvVars
    (by decide)⟩

/-! ### A failing task whose send is never received -/

/-- In a blocked state of `oneStageCfg` only the environment can take a step, and the state
stays blocked. -/
theorem step_blocked (st st' : ExecState) (a : Action) (h : blocked st)
    (hs : step oneStageCfg st a = some st') : blocked st' := by
  obtain ⟨hph, hco, hpe, hba, hld, htr, hrt⟩ := h
  have hp0 : phaseOf st 0 = TaskPhase.sendingErr := by simp [phaseOf, hph]
  cases a with
  | loop =>
    simp [step, stepLoop, hba, oneStageCfg, mapIndex, hp0] at hs
  | poll idx w o =>
    simp only [step, stepPoll] at hs
    cases ht : taskAt oneStageCfg idx with
    | none => rw [ht] at hs; cases hs
    | some t =>
      have hidx : idx = 0 := by
        by_contra hne
        have hne' : ¬ (0 = idx) := fun e => hne e.symm
        simp [taskAt, allTasks, oneStageCfg, List.find?, hne'] at ht
      subst hidx
      rw [ht] at hs
      simp [hp0] at hs
  | workerReturns idx failed =>
    have hne : phaseOf st idx ≠ TaskPhase.dispatched := by
      cases idx with
      | zero => rw [hp0]; decide
      | succ n => simp [phaseOf, hph]
    simp [step, stepWorkerReturns, hne] at hs
  | coordRecvErr idx => simp [step, stepCoordRecvErr, hco] at hs
  | coordRecvSig => simp [step, stepCoordRecvSig, hco] at hs
  | coordRecvCtx => simp [step, stepCoordRecvCtx, hco] at hs
  | osSignal =>
    simp only [step, Option.some.injEq] at hs
    subst hs
    exact ⟨hph, hco, hpe, hba, hld, by simpa using htr, by simpa using hrt⟩
  | cancel =>
    simp only [step, Option.some.injEq] at hs
    subst hs
    exact ⟨hph, hco, hpe, hba, hld, by simpa using htr, by simpa using hrt⟩

theorem run_blocked (as : List Action) :
    ∀ st st' : ExecState, blocked st → run oneStageCfg st as = some st' → blocked st' := by
  induction as with
  | nil =>
    intro st st' h hr
    simp only [run, Option.some.injEq] at hr
    subst hr; exact h
  | cons a rest ih =>
    intro st st' h hr
    simp only [run] at hr
    cases hs : step oneStageCfg st a with
    | none => rw [hs] at hr; cases hr
    | some st1 =>
      rw [hs] at hr
      exact ih st1 st' (step_blocked st st1 a h hs) hr

/-- C12: with one stage, the context is cancelled while the worker of the stage runs and
the coordinator goes on to its send on terminate; the worker then fails and the stage task
goes on to its send on the error channel. From then on, whatever steps are taken, the task
is still in that send and has not returned, the error has not been received, the
coordinator is still in its own send and the group loop has not finished. -/
theorem failed_task_blocks_in_send :
    groupStages (fun s => Except.ok s) 0 [{ ID := "a" }] []
      = Except.ok oneStageCfg.workerFuncs ∧
    run oneStageCfg (initExec oneStageCfg)
        [Action.loop, Action.poll 0 emptyWorld Launch.runs, Action.cancel,
         Action.coordRecvCtx, Action.workerReturns 0 true]
      = some blockedState ∧
    (∀ (as : List Action) (st : ExecState), run oneStageCfg blockedState as = some st →
      phaseOf st 0 = TaskPhase.sendingErr ∧ st.coord = CoordPhase.sendingTerminate ∧
      st.loopDone = false ∧ Event.workerError 0 ∉ st.trace ∧ Event.returned 0 ∉ st.trace) := by
  refine ⟨rfl, by decide, ?_⟩
  intro as st hr
  have hb : blocked blockedState := by
    refine ⟨rfl, rfl, rfl, rfl, rfl, by decide, by decide⟩
  obtain ⟨hph, hco, _, _, hld, htr, hrt⟩ := run_blocked as blockedState st hb hr
  exact ⟨by simp [phaseOf, hph], hco, hld, htr, hrt⟩

/-! ### The build identifier shared by the stage tasks -/

theorem startGroup_buildID (g : List Task) :
    ∀ st : ExecState, (startGroup st g).buildID = st.buildID := by
  induction g with
  | nil => intro st; rfl
  | cons t rest ih =>
    intro st
    have e : startGroup st (t :: rest) = startGroup { setPhase st t.idx TaskPhase.waiting with
        trace := st.trace ++ [Event.started t.idx] } rest := by
      simp [startGroup]
    rw [e, ih]
    rfl

/-- A pass of a stage task that calls the gate leaves the coordinator as it is and stores
the identifier the gate holds after its metadata read in the shared variable. -/
theorem stepPoll_buildID (cfg : ExecCfg) (st st' : ExecState) (idx : Nat) (w : World)
    (o : Launch) (hco : st.coord ≠ CoordPhase.sendingTerminate)
    (hs : stepPoll cfg st idx w o = some st') :
    st'.coord = st.coord ∧
    st'.buildID = heldAfter (w.ReadBuild cfg.gate.cosaSrvDir st.buildID "") st.buildID := by
  unfold stepPoll at hs
  cases ht : taskAt cfg idx with
  | none => rw [ht] at hs; cases hs
  | some t =>
    rw [ht] at hs
    simp only [hco, if_false] at hs
    have hg : (ready cfg.gate w t.s st.buildID (freshWs cfg.gate cfg.remoteFiles t.s)).buildID
        = heldAfter (w.ReadBuild cfg.gate.cosaSrvDir st.buildID "") st.buildID := by
      rw [ready_eq]
    split_ifs at hs with h1 h2
    · simp only [Option.some.injEq] at hs
      subst hs
      exact ⟨rfl, hg⟩
    · cases o <;>
      · simp only [Option.some.injEq] at hs
        subst hs
        exact ⟨rfl, hg⟩

/-- A step that is not a pass of a stage task through its gate leaves the shared build
identifier as it is. -/
theorem step_keeps_buildID (cfg : ExecCfg) (st st' : ExecState) (a : Action)
    (hs : step cfg st a = some st') :
    match a with
    | Action.poll _ _ _ => st.coord = CoordPhase.sendingTerminate → st'.buildID = st.buildID
    | _ => st'.buildID = st.buildID := by
  cases a with
  | loop =>
    simp only [step, stepLoop] at hs
    split at hs
    · split_ifs at hs
      simp only [Option.some.injEq] at hs
      subst hs; rfl
    · split at hs
      · split_ifs at hs
        simp only [Option.some.injEq] at hs
        subst hs; rfl
      · split_ifs at hs
        · simp only [Option.some.injEq] at hs
          subst hs; rfl
        · simp only [Option.some.injEq] at hs
          subst hs
          exact startGroup_buildID _ st
  | poll idx w o =>
    intro hco
    simp only [step, stepPoll] at hs
    split at hs
    · cases hs
    · simp only [hco, if_true] at hs
      split_ifs at hs
      simp only [Option.some.injEq] at hs
      subst hs; rfl
  | workerReturns idx failed =>
    simp only [step, stepWorkerReturns] at hs
    split_ifs at hs <;>
    · simp only [Option.some.injEq] at hs
      subst hs; rfl
  | coordRecvErr idx =>
    simp only [step, stepCoordRecvErr] at hs
    split_ifs at hs
    simp only [Option.some.injEq] at hs
    subst hs; rfl
  | coordRecvSig =>
    simp only [step, stepCoordRecvSig] at hs
    split_ifs at hs
    simp only [Option.some.injEq] at hs
    subst hs; rfl
  | coordRecvCtx =>
    simp only [step, stepCoordRecvCtx] at hs
    split_ifs at hs
    simp only [Option.some.injEq] at hs
    subst hs; rfl
  | osSignal =>
    simp only [step, Option.some.injEq] at hs
    subst hs; rfl
  | cancel =>
    simp only [step, Option.some.injEq] at hs
    subst hs; rfl

/-- Steps that are not passes of stage tasks leave the shared build identifier as it is. -/
theorem run_keeps_buildID (cfg : ExecCfg) (as : List Action) :
    ∀ st st' : ExecState, (∀ a ∈ as, a.isPoll = false) → run cfg st as = some st' →
      st'.buildID = st.buildID := by
  induction as with
  | nil =>
    intro st st' _ hr
    simp only [run, Option.some.injEq] at hr
    subst hr; rfl
  | cons a rest ih =>
    intro st st' hq hr
    simp only [run] at hr
    cases hs : step cfg st a with
    | none => rw [hs] at hr; cases hr
    | some st1 =>
      rw [hs] at hr
      have h1 := ih st1 st' (fun b hb => hq b (List.mem_cons_of_mem _ hb)) hr
      have ha := hq a (List.mem_cons_self _ _)
      have h2 := step_keeps_buildID cfg st st1 a hs
      cases a with
      | poll idx w o => cases ha
      | loop => exact h1.trans h2
      | workerReturns idx failed => exact h1.trans h2
      | coordRecvErr idx => exact h1.trans h2
      | coordRecvSig => exact h1.trans h2
      | coordRecvCtx => exact h1.trans h2
      | osSignal => exact h1.trans h2
      | cancel => exact h1.trans h2

/-- C6: the build identifier is one variable shared by all stage tasks. After the metadata
read of a poll the gate holds the identifier of the record read, or the old one when no
record was read, roots that poll's walk at its directory and keys every reference it
appends under it. A pass of a stage task that calls the gate stores that identifier in the
shared variable; every other step, and every run of steps that are not passes of stage
tasks, leaves the variable as it is; so the metadata read of the next pass, by any stage
task, asks for the record of the stored identifier. In the
sample run the first pass adopts 35.1 from the latest build, and the second pass, against a
tree whose only record lies under 35.1, finds that record and adopts its identifier
36.2, where a pass starting from the empty identifier finds nothing. -/
theorem adopted_buildID_is_carried (cfg : ExecCfg) (st : ExecState) :
    (∀ (w : World) (s : Stage) (ws : workSpec),
      (ready cfg.gate w s st.buildID ws).buildID
        = (match w.ReadBuild cfg.gate.cosaSrvDir st.buildID "" with
          | some b => b.BuildID
          | none => st.buildID) ∧
      (ready cfg.gate w s st.buildID ws).calls
        = [Call.ReadBuild cfg.gate.cosaSrvDir st.buildID "",
           Call.Walk (filepath.Join [cfg.gate.cosaSrvDir, "builds",
             filepath.Join [(ready cfg.gate w s st.buildID ws).buildID, cfg.gate.arch]])] ∧
      (∃ added : List RemoteFile,
        (ready cfg.gate w s st.buildID ws).ws.RemoteFiles = ws.RemoteFiles ++ added ∧
        ∀ r ∈ added, ∃ n, r.Object
          = filepath.Join [filepath.Join [(ready cfg.gate w s st.buildID ws).buildID,
              cfg.gate.arch], n])) ∧
    (∀ (idx : Nat) (w : World) (o : Launch) (st' : ExecState),
      st.coord ≠ CoordPhase.sendingTerminate → stepPoll cfg st idx w o = some st' →
      st'.buildID
        = (match w.ReadBuild cfg.gate.cosaSrvDir st.buildID "" with
          | some b => b.BuildID
          | none => st.buildID)) ∧
    (∀ (idx : Nat) (w : World) (o : Launch) (st' : ExecState)
        (idx2 : Nat) (w2 : World) (o2 : Launch) (st'' : ExecState),
      st.coord ≠ CoordPhase.sendingTerminate → stepPoll cfg st idx w o = some st' →
      stepPoll cfg st' idx2 w2 o2 = some st'' →
      st''.buildID
        = (match w2.ReadBuild cfg.gate.cosaSrvDir
              (match w.ReadBuild cfg.gate.cosaSrvDir st.buildID "" with
               | some b => b.BuildID
               | none => st.buildID) "" with
          | some b2 => b2.BuildID
          | none =>
            (match w.ReadBuild cfg.gate.cosaSrvDir st.buildID "" with
             | some b => b.BuildID
             | none => st.buildID))) ∧
    (∀ (a : Action) (st' : ExecState), step cfg st a = some st' →
      match a with
      | Action.poll _ _ _ => st.coord = CoordPhase.sendingTerminate → st'.buildID = st.buildID
      | _ => st'.buildID = st.buildID) ∧
    (∀ (as : List Action) (st' : ExecState), (∀ a ∈ as, a.isPoll = false) →
      run cfg st as = some st' → st'.buildID = st.buildID) ∧
    (run oneGroupCfg (initExec oneGroupCfg)
        [Action.loop, Action.poll 1 demoWorld Launch.runs]).map (fun s => s.buildID)
      = some "35.1" ∧
    (run oneGroupCfg (initExec oneGroupCfg)
        [Action.loop, Action.poll 1 demoWorld Launch.runs,
         Action.poll 2 rotatedWorld Launch.runs]).map (fun s => s.buildID)
      = some "36.2" ∧
    (run oneGroupCfg (initExec oneGroupCfg)
        [Action.loop, Action.poll 2 rotatedWorld Launch.runs]).map (fun s => s.buildID)
      = some "" := by
  refine ⟨?_, ?_, ?_, ?_, fun as st' hq hr => run_keeps_buildID cfg as st st' hq hr,
    by decide, by decide, by decide⟩
  · intro w s ws
    exact ready_buildID_walk_keys cfg.gate w s st.buildID ws
  · intro idx w o st' hco hs
    exact (stepPoll_buildID cfg st st' idx w o hco hs).2
  · intro idx w o st' idx2 w2 o2 st'' hco hs hs2
    obtain ⟨h1, h2⟩ := stepPoll_buildID cfg st st' idx w o hco hs
    have hco' : st'.coord ≠ CoordPhase.sendingTerminate := by rw [h1]; exact hco
    have h3 := (stepPoll_buildID cfg st' st'' idx2 w2 o2 hco' hs2).2
    rw [h3, h2]
    rfl
  · intro a st' hs
    have h := step_keeps_buildID cfg st st' a hs
    cases a <;> exact h

end Gangplank
